import Mathlib

/-!
Shallow embedding of the declarative update-mutation engine of
`restfulchemy` (file `restfulchemy/__init__.py`), together with proofs
about the properties claimed of it.

Python dictionaries are modelled as association lists in insertion
order (keys unique in every dictionary the program actually builds);
Python's `dict.get`/`dict.__setitem__` become `assocGet`/`assocSet`.
The object graph touched by the interpreter is a heap (a list of
objects addressed by position); SQLAlchemy instances, relationship
collections and Python `None` on the interpreter's attribute stack
become the three constructors of `StackRef`.

Python string primitives (`startswith`, `replace`, `split`, string
comparison) are given structural definitions over character lists so
that every definition evaluates inside the kernel.
-/

/-- Strip `pat` from the front of a character list; `none` when the
list does not start with `pat`.  Python `s.startswith(pat)` plus the
remainder. -/
def stripPre : List Char → List Char → Option (List Char)
  | s, [] => some s
  | [], _ :: _ => none
  | c :: cs, p :: ps => if c = p then stripPre cs ps else none

/-- Python `s.startswith(p)`. -/
def strStartsWith (s p : String) : Bool := (stripPre s.data p.data).isSome

/-- Left-to-right, non-overlapping replacement of a non-empty pattern,
fuelled by the length of the input (each step consumes at least one
character).  Python `s.replace(old, new)` for non-empty `old`. -/
def charsReplaceAux (pat rep : List Char) : Nat → List Char → List Char
  | _, [] => []
  | 0, s => s
  | fuel + 1, c :: cs =>
    if pat.isEmpty then c :: cs
    else
      match stripPre (c :: cs) pat with
      | some rest => rep ++ charsReplaceAux pat rep fuel rest
      | none => c :: charsReplaceAux pat rep fuel cs

/-- Python `s.replace(old, new)` (the interpreter only replaces the
non-empty patterns `".$id"` and `".$new"`). -/
def strReplace (s pat rep : String) : String :=
  ⟨charsReplaceAux pat.data rep.data s.data.length s.data⟩

/-- Splitter for a non-empty separator, fuelled by the length of the
input; `acc` holds the reversed characters of the current piece. -/
def charsSplitAux (sep : List Char) : Nat → List Char → List Char →
    List String
  | 0, acc, s => [⟨acc.reverse ++ s⟩]
  | fuel + 1, acc, s =>
    match s with
    | [] => [⟨acc.reverse⟩]
    | c :: cs =>
      match stripPre s sep with
      | some rest => (⟨acc.reverse⟩ : String) :: charsSplitAux sep fuel [] rest
      | none => charsSplitAux sep fuel (c :: acc) cs

/-- Python `s.split(sep)` for non-empty `sep` (`sep = ""` raises in
Python; the sources only split on `"."`, `"-"`, `":"` and `"="`). -/
def strSplitOn (s sep : String) : List String :=
  charsSplitAux sep.data s.data.length [] s.data

/-- Lexicographic code-point comparison of character lists: the order
Python `sorted` uses on strings. -/
def charsLt : List Char → List Char → Bool
  | [], [] => false
  | [], _ :: _ => true
  | _ :: _, [] => false
  | a :: as, b :: bs => if a < b then true else if b < a then false else charsLt as bs

/-- Python `a < b` on strings. -/
def strLtB (a b : String) : Bool := charsLt a.data b.data

/-- Python `a <= b` on strings. -/
def strLeB (a b : String) : Bool := strLtB a b || a == b

/-- A Python scalar value as it appears in update parameters: `None`,
booleans, integers, floats (modelled exactly as rationals) and
strings. -/
inductive PyVal where
  | pynone
  | pybool (b : Bool)
  | pyint (n : Int)
  | pyfloat (q : ℚ)
  | pystr (s : String)
deriving DecidableEq, Repr

/-- The numeric content of a Python value, if it is numeric: Python
treats `True`/`False` as `1`/`0` and compares `bool`, `int` and
`float` numerically. -/
def pyNumVal : PyVal → Option ℚ
  | .pybool b => some (if b then 1 else 0)
  | .pyint n => some (n : ℚ)
  | .pyfloat q => some q
  | _ => none

/-- Python `==` on the values above: numerics compare by value across
`bool`/`int`/`float`; strings by content; `None` only to `None`;
everything else is unequal. -/
def pyEq (a b : PyVal) : Bool :=
  match pyNumVal a, pyNumVal b with
  | some x, some y => x == y
  | _, _ =>
    match a, b with
    | .pystr s, .pystr t => s == t
    | .pynone, .pynone => true
    | _, _ => false

/-- Python `v in tup` on a tuple of values: membership via `==`. -/
def pyIn (v : PyVal) (l : List PyVal) : Bool := l.any (pyEq v)

/-- Association-list lookup, Python `dict.get`: first matching key. -/
def assocGet {α : Type} (l : List (String × α)) (k : String) : Option α :=
  (l.find? (·.1 == k)).map (·.2)

/-- Whether a key is present, Python `key in dict`. -/
def assocHas {α : Type} (l : List (String × α)) (k : String) : Bool :=
  l.any (·.1 == k)

/-- Association-list store, Python `dict[key] = value`: replace in
place if the key exists (keeping its position), else append. -/
def assocSet {α : Type} (l : List (String × α)) (k : String) (v : α) :
    List (String × α) :=
  if assocHas l k then l.map (fun p => if p.1 == k then (p.1, v) else p)
  else l ++ [(k, v)]

/-- `_is_add_key`. -/
def isAddKey (key : String) : Bool := key == "$add" || key == "_add_"

/-- `_is_remove_key`. -/
def isRemoveKey (key : String) : Bool := key == "$remove" || key == "_remove_"

/-- `_is_set_key`. -/
def isSetKey (key : String) : Bool := key == "$set" || key == "_set_"

/-- `_is_new_key`. -/
def isNewKey (key : String) : Bool :=
  strStartsWith key "$new" || strStartsWith key "_new_"

/-- `_is_id_key`. -/
def isIdKey (key : String) : Bool :=
  strStartsWith key "id-" || strStartsWith key "$id:"

/-- `get_full_attr_name`: join the key-name stack (given in push
order) with dots and append the short name (the source skips the
short name when it is falsy, i.e. the empty string). -/
def getFullAttrName (attrNameStack : List String) (shortAttrName : String) :
    String :=
  let attrName := String.intercalate "." attrNameStack
  if shortAttrName = "" then attrName
  else if attrName = "" then shortAttrName
  else attrName ++ "." ++ shortAttrName

/-- `_get_whitelist_name`: join the key-name stack (in push order),
replacing every new token with `$new` and every id token with `$id`. -/
def getWhitelistName (nameStack : List String) : String :=
  String.intercalate "."
    (nameStack.map fun attr =>
      if isNewKey attr then "$new" else if isIdKey attr then "$id" else attr)

/-- `_is_whitelisted`: `None` means fully open; otherwise the exact
name, the name with `.$id`/`.$new` placeholder segments stripped, or
either of those with a `.$verb` or `._verb_` suffix must be listed. -/
def isWhitelisted (whitelistName : String) (whitelist : Option (List String))
    (verb : Option String) : Bool :=
  match whitelist with
  | none => true
  | some wl =>
    let shortWhitelistName :=
      strReplace (strReplace whitelistName ".$id" "") ".$new" ""
    if wl.contains whitelistName || wl.contains shortWhitelistName then true
    else
      match verb with
      | none => false
      | some v =>
        let moneySuffix := ".$" ++ v
        let underscoreSuffix := "._" ++ v ++ "_"
        wl.contains (whitelistName ++ moneySuffix) ||
        wl.contains (shortWhitelistName ++ moneySuffix) ||
        wl.contains (whitelistName ++ underscoreSuffix) ||
        wl.contains (shortWhitelistName ++ underscoreSuffix)

theorem list_contains_iff_mem (wl : List String) (x : String) :
    wl.contains x = true ↔ x ∈ wl := by
  induction wl with
  | nil => simp [List.contains]
  | cons a as ih =>
    simp only [List.contains] at ih ⊢
    rw [List.elem_cons]
    split
    · next h => simp [eq_of_beq h]
    · next h =>
      simp only [List.mem_cons, ih]
      constructor
      · exact Or.inr
      · rintro (rfl | hm)
        · exact absurd (beq_self_eq_true x) (by simp_all)
        · exact hm

/-- C6: bare membership of the capability name in the whitelist grants
the check for every verb (including add, remove, set and create). -/
theorem bare_whitelist_membership_grants_all_verbs
    (name : String) (wl : List String) (verb : Option String)
    (h : name ∈ wl) : isWhitelisted name (some wl) verb = true := by
  simp only [isWhitelisted]
  rw [if_pos]
  rw [Bool.or_eq_true, list_contains_iff_mem]
  exact Or.inl h

theorem bare_whitelist_membership_grants_all_verbs_witness :
    ("tracks" ∈ ["tracks"] ∧
      isWhitelisted "tracks" (some ["tracks"]) (some "add") = true) :=
  ⟨by decide,
    bare_whitelist_membership_grants_all_verbs "tracks" ["tracks"]
      (some "add") (by decide)⟩

/-- C7: the whitelist check is monotone in the whitelist, and a
`None` whitelist permits everything. -/
theorem isWhitelisted_monotone_and_none_open :
    (∀ (name : String) (verb : Option String) (w1 w2 : List String),
        (∀ x ∈ w1, x ∈ w2) →
        isWhitelisted name (some w1) verb = true →
        isWhitelisted name (some w2) verb = true) ∧
    (∀ (name : String) (verb : Option String),
        isWhitelisted name none verb = true) := by
  constructor
  · intro name verb w1 w2 hsub h
    have hmono : ∀ x : String, w1.contains x = true → w2.contains x = true := by
      intro x hx
      rw [list_contains_iff_mem] at hx ⊢
      exact hsub x hx
    simp only [isWhitelisted] at h ⊢
    by_cases hm2 :
        (w2.contains name ||
          w2.contains
            (strReplace (strReplace name ".$id" "") ".$new" "")) = true
    · rw [if_pos hm2]
    · rw [if_neg hm2]
      split at h
      · next hm1 =>
        exfalso
        apply hm2
        rw [Bool.or_eq_true] at hm1 ⊢
        exact hm1.imp (hmono _) (hmono _)
      · next hm1 =>
        cases verb with
        | none => exact h
        | some v =>
          simp only [Bool.or_eq_true] at h ⊢
          rcases h with ((h | h) | h) | h
          · exact Or.inl (Or.inl (Or.inl (hmono _ h)))
          · exact Or.inl (Or.inl (Or.inr (hmono _ h)))
          · exact Or.inl (Or.inr (hmono _ h))
          · exact Or.inr (hmono _ h)
  · intro name verb
    rfl

theorem isWhitelisted_monotone_and_none_open_witness :
    ((∀ x ∈ ["a.$set"], x ∈ ["a.$set", "b"]) ∧
      isWhitelisted "a" (some ["a.$set"]) (some "set") = true ∧
      isWhitelisted "a" (some ["a.$set", "b"]) (some "set") = true) ∧
    isWhitelisted "anything" none (some "remove") = true :=
  ⟨⟨by decide, by decide,
      isWhitelisted_monotone_and_none_open.1 "a" (some "set")
        ["a.$set"] ["a.$set", "b"] (by decide) (by decide)⟩,
    isWhitelisted_monotone_and_none_open.2 "anything" (some "remove")⟩

/-- A node of the hierarchical update tree built by
`_split_dict_params`: a Python value or a nested dictionary. -/
inductive UTree where
  | leaf (v : PyVal)
  | node (entries : List (String × UTree))

/-- All root-to-terminal paths of an update tree (the dotted keys it
encodes, as segment lists); used to state the tree-building round
trip. -/
def treePaths : UTree → List (List String)
  | .leaf _ => [[]]
  | .node [] => []
  | .node ((k, t) :: rest) =>
      (treePaths t).map (fun p => k :: p) ++ treePaths (.node rest)

/-- Insert one split key into the nested dictionary under
construction.  The source walks from the root once per segment,
creating `{}` nodes along all proper prefixes and finally assigning
the value at the last segment; over dictionaries that is exactly this
recursion.  `none` is the `TypeError` Python raises when a walked
prefix holds a terminal (non-dict) value. -/
def splitInsert : List (String × UTree) → List String → PyVal →
    Option (List (String × UTree))
  | _, [], _ => none
  | d, [k], v => some (assocSet d k (.leaf v))
  | d, k :: k2 :: rest, v =>
    match assocGet d k with
    | none =>
      (splitInsert [] (k2 :: rest) v).map fun sub =>
        assocSet d k (.node sub)
    | some (.node sub) =>
      (splitInsert sub (k2 :: rest) v).map fun sub2 =>
        assocSet d k (.node sub2)
    | some (.leaf _) => none

/-- The key-iteration loop of `_split_dict_params`. -/
def splitDictLoop : List (String × UTree) → List (String × PyVal) →
    Option (List (String × UTree))
  | d, [] => some d
  | d, (k, v) :: rest =>
    match splitInsert d (strSplitOn k ".") v with
    | some d2 => splitDictLoop d2 rest
    | none => none

/-- `_split_dict_params`: regroup a flat dict of dotted keys into a
hierarchical dict, iterating the keys in insertion order. -/
def splitDictParams (params : List (String × PyVal)) :
    Option (List (String × UTree)) :=
  splitDictLoop [] params

/-- Keys are unique at every level of an update tree (true of every
tree built from Python dictionaries). -/
def wfT : UTree → Prop
  | .leaf _ => True
  | .node [] => True
  | .node ((k, t) :: rest) =>
      assocHas rest k = false ∧ wfT t ∧ wfT (.node rest)

theorem treePaths_node_append (d1 d2 : List (String × UTree)) :
    treePaths (.node (d1 ++ d2)) = treePaths (.node d1) ++ treePaths (.node d2) := by
  induction d1 with
  | nil => simp [treePaths]
  | cons e rest ih =>
    obtain ⟨k, t⟩ := e
    simp [treePaths, ih]

theorem mem_treePaths_node (d : List (String × UTree)) (q : List String) :
    q ∈ treePaths (.node d) ↔
      ∃ k t, (k, t) ∈ d ∧ ∃ q', q = k :: q' ∧ q' ∈ treePaths t := by
  induction d with
  | nil => simp [treePaths]
  | cons e rest ih =>
    obtain ⟨k, t⟩ := e
    simp only [treePaths, List.mem_append, List.mem_map, ih, List.mem_cons]
    constructor
    · rintro (⟨q', hq', rfl⟩ | ⟨k2, t2, hm, q', rfl, hq'⟩)
      · exact ⟨k, t, Or.inl rfl, q', rfl, hq'⟩
      · exact ⟨k2, t2, Or.inr hm, q', rfl, hq'⟩
    · rintro ⟨k2, t2, hm | hm, q', rfl, hq'⟩
      · obtain ⟨rfl, rfl⟩ := Prod.mk.injEq .. ▸ hm
        · exact Or.inl ⟨q', hq', rfl⟩
      · exact Or.inr ⟨k2, t2, hm, q', rfl, hq'⟩

theorem assocGet_none_no_entry {α : Type} (d : List (String × α)) (k : String)
    (h : assocGet d k = none) : ∀ t, (k, t) ∉ d := by
  intro t hmem
  unfold assocGet at h
  rw [Option.map_eq_none', List.find?_eq_none] at h
  exact absurd (by simp : ((k, t).1 == k) = true) (h _ hmem)

theorem assocGet_eq_of_mem_nodup {α : Type} (d : List (String × α))
    (k : String) (t : α) (hnd : (d.map (·.1)).Nodup) (hmem : (k, t) ∈ d) :
    assocGet d k = some t := by
  induction d with
  | nil => simp at hmem
  | cons e rest ih =>
    obtain ⟨k1, t1⟩ := e
    simp only [List.map_cons, List.nodup_cons] at hnd
    rcases List.mem_cons.1 hmem with heq | hm
    · obtain ⟨rfl, rfl⟩ := Prod.mk.injEq .. ▸ heq
      simp [assocGet]
    · have hk : (k1 == k) = false := by
        refine beq_eq_false_iff_ne.2 fun hkk => ?_
        subst hkk
        exact hnd.1 (List.mem_map.2 ⟨(k1, t), hm, rfl⟩)
      simp only [assocGet, List.find?, hk]
      simpa [assocGet] using ih hnd.2 hm

/-- The top-level key list of a well-formed node is duplicate-free. -/
theorem wfT_nodup_keys (d : List (String × UTree)) (h : wfT (.node d)) :
    (d.map (·.1)).Nodup := by
  induction d with
  | nil => simp
  | cons e rest ih =>
    obtain ⟨k, t⟩ := e
    simp only [wfT] at h
    obtain ⟨hhas, _, hrest⟩ := h
    simp only [List.map_cons, List.nodup_cons]
    refine ⟨fun hmem => ?_, ih hrest⟩
    obtain ⟨⟨k2, t2⟩, hm2, hk2⟩ := List.mem_map.1 hmem
    have : assocHas rest k = true := by
      apply List.any_eq_true.2
      exact ⟨(k2, t2), hm2, beq_iff_eq.2 hk2⟩
    simp [this] at hhas

theorem wfT_of_mem (d : List (String × UTree)) (k : String) (t : UTree)
    (h : wfT (.node d)) (hmem : (k, t) ∈ d) : wfT t := by
  induction d with
  | nil => simp at hmem
  | cons e rest ih =>
    obtain ⟨k1, t1⟩ := e
    simp only [wfT] at h
    obtain ⟨_, ht1, hrest⟩ := h
    rcases List.mem_cons.1 hmem with heq | hm
    · obtain ⟨rfl, rfl⟩ := Prod.mk.injEq .. ▸ heq
      exact ht1
    · exact ih hrest hm

theorem mem_treePaths_of_assocGet (d : List (String × UTree)) (k : String)
    (t : UTree) (hwf : wfT (.node d)) (hget : assocGet d k = some t) :
    ∀ q', (k :: q') ∈ treePaths (.node d) → q' ∈ treePaths t := by
  intro q' hq
  obtain ⟨k2, t2, hmem, q2, heq, hq2⟩ := (mem_treePaths_node d _).1 hq
  obtain ⟨rfl, rfl⟩ := List.cons.injEq .. ▸ heq
  have := assocGet_eq_of_mem_nodup d k t2 (wfT_nodup_keys d hwf) hmem
  rw [hget] at this
  obtain rfl := Option.some.injEq .. ▸ this
  exact hq2

theorem assocGet_mem {α : Type} (d : List (String × α)) (k : String) (t : α)
    (h : assocGet d k = some t) : (k, t) ∈ d := by
  unfold assocGet at h
  obtain ⟨⟨k1, t1⟩, hfind, hval⟩ := Option.map_eq_some.1 h
  have hk := List.find?_some hfind
  simp only [beq_iff_eq] at hk
  subst hk
  obtain rfl : t1 = t := hval
  exact List.mem_of_find?_eq_some hfind

theorem assocHas_false_no_entry {α : Type} (d : List (String × α)) (k : String)
    (h : assocHas d k = false) : ∀ t, (k, t) ∉ d := by
  intro t hmem
  have : assocHas d k = true := List.any_eq_true.2 ⟨(k, t), hmem, by simp⟩
  simp [this] at h

theorem treePaths_node_single (k : String) (t : UTree) :
    treePaths (.node [(k, t)]) = (treePaths t).map (k :: ·) := by
  simp [treePaths]

theorem mem_treePaths_mapReplace (d : List (String × UTree)) (k : String)
    (t : UTree) (q : List String) :
    q ∈ treePaths (.node (d.map fun p => if p.1 == k then (p.1, t) else p)) ↔
      ((∃ k2 t2, (k2, t2) ∈ d ∧ k2 ≠ k ∧ ∃ q', q = k2 :: q' ∧ q' ∈ treePaths t2) ∨
        (∃ t2, (k, t2) ∈ d ∧ ∃ q', q = k :: q' ∧ q' ∈ treePaths t)) := by
  rw [mem_treePaths_node]
  constructor
  · rintro ⟨k2, t2, hmem, q', rfl, hq'⟩
    obtain ⟨⟨k3, t3⟩, hm3, heq⟩ := List.mem_map.1 hmem
    by_cases hk : (k3 == k) = true
    · obtain rfl := beq_iff_eq.1 hk
      simp only [beq_self_eq_true, if_pos] at heq
      obtain ⟨rfl, rfl⟩ := Prod.mk.injEq .. ▸ heq
      exact Or.inr ⟨t3, hm3, q', rfl, hq'⟩
    · rw [if_neg hk] at heq
      injection heq with hkeq hteq
      subst hkeq
      subst hteq
      exact Or.inl ⟨k3, t3, hm3, by simpa using hk, q', rfl, hq'⟩
  · rintro (⟨k2, t2, hmem, hne, q', rfl, hq'⟩ | ⟨t2, hmem, q', rfl, hq'⟩)
    · refine ⟨k2, t2, List.mem_map.2 ⟨(k2, t2), hmem, ?_⟩, q', rfl, hq'⟩
      rw [if_neg (by simpa using hne)]
    · refine ⟨k, t, List.mem_map.2 ⟨(k, t2), hmem, ?_⟩, q', rfl, hq'⟩
      rw [if_pos (by simp)]

theorem mem_treePaths_assocSet (d : List (String × UTree)) (k : String)
    (t : UTree) (q : List String) :
    q ∈ treePaths (.node (assocSet d k t)) ↔
      ((q ∈ treePaths (.node d) ∧ ∀ q', q ≠ k :: q') ∨
        ∃ q', q = k :: q' ∧ q' ∈ treePaths t) := by
  unfold assocSet
  by_cases hhas : assocHas d k = true
  · rw [if_pos hhas, mem_treePaths_mapReplace]
    obtain ⟨⟨k0, t0⟩, hm0, hk0⟩ := List.any_eq_true.1 hhas
    obtain rfl := beq_iff_eq.1 hk0
    constructor
    · rintro (⟨k2, t2, hmem, hne, q', rfl, hq'⟩ | ⟨t2, hmem, q', rfl, hq'⟩)
      · refine Or.inl ⟨(mem_treePaths_node d _).2 ⟨k2, t2, hmem, q', rfl, hq'⟩, ?_⟩
        intro q2 hq2
        exact hne (by injection hq2)
      · exact Or.inr ⟨q', rfl, hq'⟩
    · rintro (⟨hmem, hne⟩ | ⟨q', rfl, hq'⟩)
      · obtain ⟨k2, t2, hm2, q', rfl, hq'⟩ := (mem_treePaths_node d _).1 hmem
        refine Or.inl ⟨k2, t2, hm2, fun hkk => ?_, q', rfl, hq'⟩
        exact hne q' (by rw [hkk])
      · exact Or.inr ⟨t0, hm0, q', rfl, hq'⟩
  · rw [if_neg hhas, treePaths_node_append, treePaths_node_single]
    have hnok : ∀ q2 ∈ treePaths (.node d), ∀ q', q2 ≠ k :: q' := by
      intro q2 hq2 q' heq
      obtain ⟨k2, t2, hm2, q3, rfl, _⟩ := (mem_treePaths_node d _).1 hq2
      injection heq with hkeq _
      exact assocHas_false_no_entry d k (by simpa using hhas) t2 (hkeq ▸ hm2)
    simp only [List.mem_append, List.mem_map]
    constructor
    · rintro (hq | ⟨q', hq', rfl⟩)
      · exact Or.inl ⟨hq, hnok q hq⟩
      · exact Or.inr ⟨q', rfl, hq'⟩
    · rintro (⟨hq, _⟩ | ⟨q', rfl, hq'⟩)
      · exact Or.inl hq
      · exact Or.inr ⟨q', hq', rfl⟩

theorem assocHas_mapReplace (d : List (String × UTree)) (k k2 : String)
    (t : UTree) :
    assocHas (d.map fun p => if p.1 == k then (p.1, t) else p) k2 =
      assocHas d k2 := by
  induction d with
  | nil => rfl
  | cons e rest ih =>
    obtain ⟨k1, t1⟩ := e
    by_cases hk : (k1 == k) = true
    · simp only [List.map_cons, if_pos hk, assocHas, List.any_cons] at ih ⊢
      rw [ih]
    · simp only [List.map_cons, if_neg hk, assocHas, List.any_cons] at ih ⊢
      rw [ih]

theorem wfT_assocSet (d : List (String × UTree)) (k : String) (t : UTree)
    (hd : wfT (.node d)) (ht : wfT t) : wfT (.node (assocSet d k t)) := by
  unfold assocSet
  by_cases hhas : assocHas d k = true
  · rw [if_pos hhas]
    clear hhas
    induction d with
    | nil => simp [wfT]
    | cons e rest ih =>
      obtain ⟨k1, t1⟩ := e
      simp only [wfT] at hd
      obtain ⟨hh, ht1, hrest⟩ := hd
      by_cases hk : (k1 == k) = true
      · obtain rfl := beq_iff_eq.1 hk
        simp only [List.map_cons, if_pos hk, wfT]
        exact ⟨by rw [assocHas_mapReplace]; exact hh, ht, ih hrest⟩
      · simp only [List.map_cons, if_neg hk, wfT]
        refine ⟨?_, ht1, ih hrest⟩
        rw [assocHas_mapReplace]
        exact hh
  · rw [if_neg hhas]
    rw [Bool.not_eq_true] at hhas
    induction d with
    | nil => simp [wfT, assocHas, ht]
    | cons e rest ih =>
      obtain ⟨k1, t1⟩ := e
      simp only [wfT] at hd
      obtain ⟨hh, ht1, hrest⟩ := hd
      simp only [assocHas, List.any_cons, Bool.or_eq_false_iff] at hhas
      simp only [List.cons_append, wfT]
      refine ⟨?_, ht1, ih hrest hhas.2⟩
      simp only [assocHas, List.any_append, Bool.or_eq_false_iff]
      refine ⟨hh, ?_⟩
      simp only [List.any_cons, List.any_nil, Bool.or_false]
      rw [beq_eq_false_iff_ne]
      intro hkk
      subst hkk
      simp at hhas

theorem mem_treePaths_of_entry (d : List (String × UTree)) (k : String)
    (t : UTree) (q' : List String) (hmem : (k, t) ∈ d)
    (hq : q' ∈ treePaths t) : (k :: q') ∈ treePaths (.node d) :=
  (mem_treePaths_node d _).2 ⟨k, t, hmem, q', rfl, hq⟩

/-- Main lemma about inserting one split key: when the new path and
the existing paths are mutually prefix-free, insertion succeeds,
preserves well-formedness, and adds exactly the new path. -/
theorem splitInsert_spec :
    ∀ (p : List String) (d : List (String × UTree)) (v : PyVal),
      p ≠ [] → wfT (.node d) →
      (∀ q ∈ treePaths (.node d), ¬ q <+: p ∧ ¬ p <+: q) →
      ∃ d2, splitInsert d p v = some d2 ∧ wfT (.node d2) ∧
        ∀ q, (q ∈ treePaths (.node d2) ↔ (q ∈ treePaths (.node d) ∨ q = p))
  | [], _, _, hne, _, _ => absurd rfl hne
  | [k], d, v, _, hwf, hpre => by
    refine ⟨assocSet d k (.leaf v), rfl, wfT_assocSet d k _ hwf (by simp [wfT]), ?_⟩
    intro q
    rw [mem_treePaths_assocSet]
    constructor
    · rintro (⟨hq, _⟩ | ⟨q', rfl, hq'⟩)
      · exact Or.inl hq
      · simp only [treePaths, List.mem_cons, List.not_mem_nil, or_false] at hq'
        subst hq'
        exact Or.inr rfl
    · rintro (hq | rfl)
      · refine Or.inl ⟨hq, fun q' hq' => ?_⟩
        exact (hpre q hq).2 (by rw [hq']; exact ⟨q', rfl⟩)
      · exact Or.inr ⟨[], rfl, by simp [treePaths]⟩
  | k :: k2 :: rest, d, v, _, hwf, hpre => by
    have hp' : (k2 :: rest : List String) ≠ [] := by simp
    match hget : assocGet d k with
    | none =>
      obtain ⟨sub, hins, hwfs, hmems⟩ :=
        splitInsert_spec (k2 :: rest) [] v hp' (by simp [wfT])
          (by simp [treePaths])
      refine ⟨assocSet d k (.node sub), ?_, wfT_assocSet d k _ hwf hwfs, ?_⟩
      · simp only [splitInsert, hget, hins]
        rfl
      · intro q
        rw [mem_treePaths_assocSet]
        constructor
        · rintro (⟨hq, _⟩ | ⟨q', rfl, hq'⟩)
          · exact Or.inl hq
          · rcases (hmems q').1 hq' with h | rfl
            · simp [treePaths] at h
            · exact Or.inr rfl
        · rintro (hq | rfl)
          · refine Or.inl ⟨hq, fun q' hq' => ?_⟩
            obtain ⟨k3, t3, hm3, q3, rfl, _⟩ := (mem_treePaths_node d _).1 hq
            injection hq' with hk3 _
            exact assocGet_none_no_entry d k hget t3 (hk3 ▸ hm3)
          · exact Or.inr ⟨k2 :: rest, rfl, (hmems _).2 (Or.inr rfl)⟩
    | some (.leaf w) =>
      exact absurd
        (hpre [k]
          (mem_treePaths_of_entry d k (.leaf w) [] (assocGet_mem d k _ hget)
            (by simp [treePaths]))).1
        (not_not_intro ⟨k2 :: rest, rfl⟩)
    | some (.node sub) =>
      have hwfsub : wfT (.node sub) :=
        wfT_of_mem d k (.node sub) hwf (assocGet_mem d k _ hget)
      obtain ⟨sub2, hins, hwfs2, hmems⟩ :=
        splitInsert_spec (k2 :: rest) sub v hp' hwfsub
          (by
            intro q' hq'
            have := hpre (k :: q')
              (mem_treePaths_of_entry d k (.node sub) q'
                (assocGet_mem d k _ hget) hq')
            constructor
            · intro hp
              exact this.1 (List.cons_prefix_cons.2 ⟨rfl, hp⟩)
            · intro hp
              exact this.2 (List.cons_prefix_cons.2 ⟨rfl, hp⟩))
      refine ⟨assocSet d k (.node sub2), ?_, wfT_assocSet d k _ hwf hwfs2, ?_⟩
      · simp only [splitInsert, hget, hins]
        rfl
      · intro q
        rw [mem_treePaths_assocSet]
        constructor
        · rintro (⟨hq, _⟩ | ⟨q', rfl, hq'⟩)
          · exact Or.inl hq
          · rcases (hmems q').1 hq' with h | rfl
            · exact Or.inl
                (mem_treePaths_of_entry d k (.node sub) q'
                  (assocGet_mem d k _ hget) h)
            · exact Or.inr rfl
        · rintro (hq | rfl)
          · by_cases hhead : ∃ q', q = k :: q'
            · obtain ⟨q', rfl⟩ := hhead
              have hq' : q' ∈ treePaths (.node sub) :=
                mem_treePaths_of_assocGet d k (.node sub) hwf hget q' hq
              exact Or.inr ⟨q', rfl, (hmems q').2 (Or.inl hq')⟩
            · exact Or.inl ⟨hq, fun q' hq' => hhead ⟨q', hq'⟩⟩
          · exact Or.inr ⟨k2 :: rest, rfl, (hmems _).2 (Or.inr rfl)⟩

/-- The split of a dotted key, as the source computes it. -/
def splitKey (k : String) : List String := strSplitOn k "."

/-- Two keys whose splits are mutually non-prefixing (in particular
distinct). -/
def MutuallyFree (a b : String × PyVal) : Prop :=
  ¬ splitKey a.1 <+: splitKey b.1 ∧ ¬ splitKey b.1 <+: splitKey a.1

instance : DecidableRel MutuallyFree := fun a b => by
  unfold MutuallyFree
  infer_instance

theorem splitDictLoop_spec :
    ∀ (params : List (String × PyVal)) (d : List (String × UTree)),
      wfT (.node d) →
      (∀ q ∈ treePaths (.node d), ∀ pr ∈ params,
        ¬ q <+: splitKey pr.1 ∧ ¬ splitKey pr.1 <+: q) →
      List.Pairwise MutuallyFree params →
      (∀ pr ∈ params, splitKey pr.1 ≠ []) →
      ∃ d2, splitDictLoop d params = some d2 ∧ wfT (.node d2) ∧
        ∀ q, (q ∈ treePaths (.node d2) ↔
          (q ∈ treePaths (.node d) ∨ ∃ pr ∈ params, q = splitKey pr.1))
  | [], d, hwf, _, _, _ => ⟨d, rfl, hwf, by simp⟩
  | (k, v) :: rest, d, hwf, hcross, hpw, hne => by
    obtain ⟨d1, hins, hwf1, hmem1⟩ :=
      splitInsert_spec (splitKey k) d v (hne (k, v) (by simp)) hwf
        (fun q hq => hcross q hq (k, v) (by simp))
    rw [List.pairwise_cons] at hpw
    obtain ⟨d2, hloop, hwf2, hmem2⟩ :=
      splitDictLoop_spec rest d1 hwf1
        (by
          intro q hq pr hpr
          rcases (hmem1 q).1 hq with hq' | rfl
          · exact hcross q hq' pr (List.mem_cons_of_mem _ hpr)
          · exact ⟨(hpw.1 pr hpr).1, (hpw.1 pr hpr).2⟩)
        hpw.2 (fun pr hpr => hne pr (List.mem_cons_of_mem _ hpr))
    refine ⟨d2, ?_, hwf2, ?_⟩
    · simp only [splitDictLoop, splitKey] at hins ⊢
      rw [hins]
      exact hloop
    · intro q
      rw [hmem2, hmem1]
      constructor
      · rintro ((hq | rfl) | ⟨pr, hpr, rfl⟩)
        · exact Or.inl hq
        · exact Or.inr ⟨(k, v), by simp⟩
        · exact Or.inr ⟨pr, List.mem_cons_of_mem _ hpr, rfl⟩
      · rintro (hq | ⟨pr, hpr, rfl⟩)
        · exact Or.inl (Or.inl hq)
        · rcases List.mem_cons.1 hpr with rfl | hpr'
          · exact Or.inl (Or.inr rfl)
          · exact Or.inr ⟨pr, hpr', rfl⟩


theorem charsSplitAux_ne_nil (sep : List Char) :
    ∀ (fuel : Nat) (acc s : List Char), charsSplitAux sep fuel acc s ≠ []
  | 0, acc, s => by simp [charsSplitAux]
  | fuel + 1, acc, [] => by simp [charsSplitAux]
  | fuel + 1, acc, c :: cs => by
    unfold charsSplitAux
    match stripPre (c :: cs) sep with
    | some rest => simp
    | none => exact charsSplitAux_ne_nil sep fuel (c :: acc) cs

/-- Python `split` never returns an empty list. -/
theorem splitKey_ne_nil (k : String) : splitKey k ≠ [] :=
  charsSplitAux_ne_nil (".".data) k.data.length [] k.data

/-- C8 (amended): for a flat map whose split keys are pairwise
mutually non-prefixing (in particular pairwise distinct), building
the update tree succeeds and re-deriving the root-to-terminal dotted
paths reproduces exactly the original key set (keys compared through
their dot-segment decomposition).  Without the prefix-freedom the
round trip fails, see the counterexample. -/
theorem splitDictParams_round_trip (params : List (String × PyVal))
    (hpw : List.Pairwise MutuallyFree params) :
    ∃ d, splitDictParams params = some d ∧
      ∀ q, (q ∈ treePaths (.node d) ↔ ∃ pr ∈ params, q = splitKey pr.1) := by
  obtain ⟨d, hloop, _, hmem⟩ :=
    splitDictLoop_spec params [] (by simp [wfT]) (by simp [treePaths]) hpw
      (fun pr _ => splitKey_ne_nil pr.1)
  refine ⟨d, hloop, fun q => ?_⟩
  rw [hmem q]
  simp [treePaths]

theorem splitDictParams_round_trip_witness :
    (splitDictParams [("title", .pystr "x"), ("tracks.name", .pystr "y")]).isSome
      = true := by
  obtain ⟨d, hd, _⟩ :=
    splitDictParams_round_trip
      [("title", .pystr "x"), ("tracks.name", .pystr "y")]
      (by
        constructor
        · intro b hb
          rw [List.mem_singleton] at hb
          subst hb
          exact ⟨by decide, by decide⟩
        · simp)
  rw [hd]
  rfl

/-- C8 counterexample: the map `{"a.b": x, "a": y}` has unique dotted
keys, yet the built tree loses the key `"a.b"` (the later insertion of
`"a"` overwrites the nested node); in the opposite insertion order the
builder crashes with a `TypeError` (modelled as `none`). -/
theorem splitDictParams_round_trip_counterexample :
    splitDictParams [("a.b", .pystr "x"), ("a", .pystr "y")] =
        some [("a", UTree.leaf (.pystr "y"))] ∧
    (treePaths (UTree.node [("a", UTree.leaf (.pystr "y"))])).map
        (String.intercalate "." ·) = ["a"] ∧
    ("a.b" ∈ (["a"] : List String)) = False ∧
    splitDictParams [("a", .pystr "y"), ("a.b", .pystr "x")] = none := by
  refine ⟨rfl, ?_, by simp, rfl⟩
  simp only [treePaths, List.map_cons, List.map_nil]
  rfl

/-- A scalar column's storage type. -/
inductive ColType where
  | ctString
  | ctInt
  | ctBool
  | ctFloat
deriving DecidableEq, Repr

/-- One mapped attribute: a scalar column or a relationship (with its
target class and whether it uses a list). -/
inductive AttrKind where
  | column (t : ColType)
  | relation (target : String) (uselist : Bool)
deriving DecidableEq, Repr

/-- The mapping metadata of one class: its attributes in declaration
order and its primary-key field names. -/
structure TypeInfo where
  attrs : List (String × AttrKind)
  primaryKeys : List String
deriving DecidableEq, Repr

/-- The mapping metadata of all classes (SQLAlchemy's mappers). -/
abbrev Schema := List (String × TypeInfo)

def schemaType (sch : Schema) (n : String) : Option TypeInfo :=
  assocGet sch n

def schemaAttr (sch : Schema) (ty n : String) : Option AttrKind :=
  (schemaType sch ty).bind fun ti => assocGet ti.attrs n

/-- `get_alchemy_primary_keys`. -/
def getAlchemyPrimaryKeys (sch : Schema) (ty : String) : List String :=
  ((schemaType sch ty).map (·.primaryKeys)).getD []

/-- One element of the list `get_class_attributes` returns: the root
class or an id/new target class, a column attribute, a relationship
attribute, or the `None` recorded for a verb segment. -/
inductive ClassAttr where
  | cls (name : String)
  | attrCol (t : ColType)
  | attrRel (target : String) (uselist : Bool)
  | verbNone
deriving DecidableEq, Repr

def attrKindToClassAttr : AttrKind → ClassAttr
  | .column t => .attrCol t
  | .relation tgt ul => .attrRel tgt ul

/-- The segment loop of `get_class_attributes`: the cursor starts at
the root class; under a relationship cursor, id/new segments append
the target class and verb segments append `None`, both leaving the
cursor in place; otherwise the segment is looked up as an attribute
(dereferencing a relationship cursor to its target class first).
`none` is the `AttributeError` raised on a failed lookup; the model's
attribute universe is the mapping metadata, so a lookup on a column
attribute cursor also fails (in Python only SQL comparator helper
names would resolve there, and no update path names those). -/
def gcaLoop (sch : Schema) : ClassAttr → List String → List ClassAttr →
    Option (List ClassAttr)
  | _, [], acc => some acc
  | cursor, seg :: rest, acc =>
    match cursor with
    | .attrRel tgt ul =>
      if isIdKey seg || isNewKey seg then
        gcaLoop sch (.attrRel tgt ul) rest (acc ++ [.cls tgt])
      else if isAddKey seg || isRemoveKey seg || isSetKey seg then
        gcaLoop sch (.attrRel tgt ul) rest (acc ++ [.verbNone])
      else
        match schemaAttr sch tgt seg with
        | some kind =>
          gcaLoop sch (attrKindToClassAttr kind) rest
            (acc ++ [attrKindToClassAttr kind])
        | none => none
    | .cls n =>
      match schemaAttr sch n seg with
      | some kind =>
        gcaLoop sch (attrKindToClassAttr kind) rest
          (acc ++ [attrKindToClassAttr kind])
      | none => none
    | _ => none

/-- `get_class_attributes`: dotted-name resolution against the mapping
metadata.  The first segment must be the root class's name. -/
def getClassAttributes (sch : Schema) (rootName : String)
    (attrName : String) : Option (List ClassAttr) :=
  match strSplitOn attrName "." with
  | [] => none
  | c :: rest =>
    if c = rootName then gcaLoop sch (.cls rootName) rest [.cls rootName]
    else none

def dropPre (s p : String) : String := ⟨(stripPre s.data p.data).getD s.data⟩

/-- Select the elements at even positions (Python `l[0::2]`). -/
def evenIdx {α : Type} : List α → List α
  | [] => []
  | [a] => [a]
  | a :: _ :: rest => a :: evenIdx rest

/-- Select the elements at odd positions (Python `l[1::2]`). -/
def oddIdx {α : Type} : List α → List α
  | [] => []
  | [_] => []
  | _ :: b :: rest => b :: oddIdx rest

/-- Build a dict from key/value pairs in order (later pairs win). -/
def assocSetAll (l : List (String × String)) : List (String × String) :=
  l.foldl (fun acc kv => assocSet acc kv.1 kv.2) []

/-- Parse the `field=value` pieces of a `$id:` token; `none` is the
`AttributeError` for a piece without exactly one `=`. -/
def parseEqPairs : List String → Option (List (String × String))
  | [] => some []
  | kv :: rest =>
    match strSplitOn kv "=" with
    | [k, v] => (parseEqPairs rest).map ((k, v) :: ·)
    | _ => none

/-- `get_primary_key_dict`: turn `id-f-6` or `$id:f=6` into
`{f: "6"}`; `none` is the `AttributeError` on a malformed token (the
source returns Python `None` for a token with neither prefix, which
its callers never pass). -/
def getPrimaryKeyDict (idString : String) : Option (List (String × String)) :=
  if strStartsWith idString "id-" then
    let parts := strSplitOn (dropPre idString "id-") "-"
    if parts.length % 2 == 1 || parts.length == 0 then none
    else some (assocSetAll ((evenIdx parts).zip (oddIdx parts)))
  else if strStartsWith idString "$id:" then
    (parseEqPairs (strSplitOn (dropPre idString "$id:") ":")).map assocSetAll
  else none

def charDigit (c : Char) : Option Nat :=
  if '0' ≤ c ∧ c ≤ '9' then some (c.toNat - '0'.toNat) else none

def digitsToNatAux : Nat → List Char → Option Nat
  | acc, [] => some acc
  | acc, c :: cs =>
    match charDigit c with
    | some d => digitsToNatAux (acc * 10 + d) cs
    | none => none

def strToIntP (s : String) : Option Int :=
  match s.data with
  | [] => none
  | '-' :: rest =>
    if rest.isEmpty then none
    else (digitsToNatAux 0 rest).map (fun n => -(n : Int))
  | cs => (digitsToNatAux 0 cs).map (fun n => (n : Int))

/-- Modelled from the spec: the external type-coercion service
(`mqlalchemy.convert_to_alchemy_type`, outside this repository) —
"coerce(raw_value, target_scalar_type) -> typed_value, failing with a
type-coercion error on malformed input (e.g. non-numeric string into
an integer column)".  `None` passes through; strings parse into the
column's type; malformed input is `Except.error`. -/
def convertToAlchemyType : PyVal → ColType → Except Unit PyVal
  | .pynone, _ => .ok .pynone
  | .pystr s, .ctString => .ok (.pystr s)
  | .pystr s, .ctInt =>
    match strToIntP s with
    | some n => .ok (.pyint n)
    | none => .error ()
  | .pystr s, .ctBool =>
    if s = "true" || s = "True" || s = "1" then .ok (.pybool true)
    else if s = "false" || s = "False" || s = "0" then .ok (.pybool false)
    else .error ()
  | .pystr s, .ctFloat =>
    match strToIntP s with
    | some n => .ok (.pyfloat (n : ℚ))
    | none => .error ()
  | .pyint n, .ctInt => .ok (.pyint n)
  | .pyint n, .ctBool => .ok (.pybool (n ≠ 0))
  | .pyint n, .ctFloat => .ok (.pyfloat (n : ℚ))
  | .pybool b, .ctBool => .ok (.pybool b)
  | .pyfloat q, .ctFloat => .ok (.pyfloat q)
  | _, _ => .error ()

/-- The `$remove` value coercion: `convert_to_alchemy_type(value,
BOOLEAN)` with conversion failure caught and treated as `False`, then
used as a truth value (`None` and `False` are falsy). -/
def coerceRemoveFlag : UTree → Bool
  | .leaf v =>
    match convertToAlchemyType v .ctBool with
    | .ok (.pybool b) => b
    | _ => false
  | .node _ => false

/-- The value stored in one attribute slot of a live object: a scalar,
a single-valued relationship reference, or a relationship list. -/
inductive FieldVal where
  | scalar (v : PyVal)
  | ref (o : Option Nat)
  | many (l : List Nat)
deriving DecidableEq, Repr

/-- A live object: its mapped class name and its explicitly set
attribute slots (unset slots read as the schema defaults: `None` for
columns and single relationships, `[]` for list relationships). -/
structure Obj where
  typeName : String
  fields : List (String × FieldVal)
deriving DecidableEq, Repr

/-- The object graph: objects addressed by position. -/
abbrev Heap := List Obj

/-- An entry of the interpreter's `attr_stack`: a live instance, a
relationship collection (aliasing `owner.field`), or Python `None`. -/
inductive StackRef where
  | obj (i : Nat)
  | relList (owner : Nat) (field : String)
  | null
deriving DecidableEq, Repr

def defaultFieldVal : AttrKind → FieldVal
  | .column _ => .scalar .pynone
  | .relation _ false => .ref none
  | .relation _ true => .many []

/-- `getattr` on a live object by field name; `none` is an
`AttributeError` (the field is not mapped). -/
def objGetField (sch : Schema) (h : Heap) (i : Nat) (f : String) :
    Option FieldVal :=
  (h.get? i).bind fun o =>
    match assocGet o.fields f with
    | some fv => some fv
    | none => (schemaAttr sch o.typeName f).map defaultFieldVal

/-- `setattr` on a live object (Python `setattr` is untyped). -/
def objSetField (h : Heap) (i : Nat) (f : String) (fv : FieldVal) : Heap :=
  match h.get? i with
  | some o => h.set i { o with fields := assocSet o.fields f fv }
  | none => h

/-- The aggregated error map: full dotted attribute path to the list
of messages recorded for it, in insertion order. -/
abbrev ErrorDict := List (String × List String)

/-- `_append_error`. -/
def appendError (errs : ErrorDict) (field msg : String) : ErrorDict :=
  match assocGet errs field with
  | some msgs => assocSet errs field (msgs ++ [msg])
  | none => errs ++ [(field, [msg])]

/-- The recurring sibling-marker test
`update_stack_item.get(k) in (True, "True", "true", 1, "1")` —
membership in a Python tuple, hence via Python `==`. -/
def markerTrue (item : UTree) (k : String) : Bool :=
  match item with
  | .node entries =>
    match assocGet entries k with
    | some (.leaf v) =>
      pyIn v [.pybool true, .pystr "True", .pystr "true", .pyint 1, .pystr "1"]
    | _ => false
  | .leaf _ => false

/-- Whether `update_stack_item` is a dict carrying an asserted `$add`
or `_add_` marker (the guard of `_append_to_list_relation`). -/
def addMarkerGiven (item : UTree) : Bool :=
  markerTrue item "$add" || markerTrue item "_add_"

/-- Whether `update_stack_item` is a dict carrying an asserted `$set`
or `_set_` marker. -/
def setMarkerGiven (item : UTree) : Bool :=
  markerTrue item "$set" || markerTrue item "_set_"

/-- `_append_to_list_relation`: require the `$add`/`_add_` sibling
marker to be asserted, then the `add` capability, then (outside
validation mode) append to the relationship collection; `none` models
the `AttributeError`/aliasing failure of `.append` on a parent that is
not a relationship list (unreachable in real runs). -/
def appendToListRelation (sch : Schema) (h : Heap) (relationObj : Nat)
    (parent : StackRef) (updateStackItem : UTree)
    (fullAttrName whitelistName : String) (whitelist : Option (List String))
    (errorDict : ErrorDict) (validationMode : Bool) :
    Option (Heap × ErrorDict × Bool) :=
  if ¬ addMarkerGiven updateStackItem then
    some (h, appendError errorDict fullAttrName
      ("This sub-item is not currently included in this " ++
        "relationship. Were you attempting to add a new item and " ++
        "forgot to include an $add field?"), false)
  else if ¬ isWhitelisted whitelistName whitelist (some "add") then
    some (h, appendError errorDict fullAttrName
      "Adding an object to this relation is not whitelisted", false)
  else if validationMode then some (h, errorDict, true)
  else
    match parent with
    | .relList o f =>
      match objGetField sch h o f with
      | some (.many l) =>
        some (objSetField h o f (.many (l ++ [relationObj])), errorDict, true)
      | _ => none
    | _ => none

/-- Whether a read attribute value is Python `None`. -/
def fieldValIsNone : FieldVal → Bool
  | .ref none => true
  | .scalar .pynone => true
  | _ => false

/-- `_set_non_list_relationship_obj`: when the relation is already
set, require an asserted `$set`/`_set_` marker and the `set` (or
`remove` plus `add`) capability; when unset, `$set` or `$add` markers
and the `add` or `set` capability; then (outside validation mode)
assign the relation.  `none` models `getattr`/`setattr` raising on a
parent that is not a live object (unreachable in real runs). -/
def setNonListRelationshipObj (sch : Schema) (h : Heap) (relationObj : Nat)
    (parent : StackRef) (relationshipName : String) (updateStackItem : UTree)
    (fullAttrName whitelistName : String) (whitelist : Option (List String))
    (errorDict : ErrorDict) (validationMode : Bool) :
    Option (Heap × ErrorDict × Bool) :=
  match parent with
  | .obj p =>
    match objGetField sch h p relationshipName with
    | some current =>
      if ¬ fieldValIsNone current then
        if ¬ setMarkerGiven updateStackItem then
          some (h, appendError errorDict fullAttrName
            ("Referenced a sub item id that does not exist." ++
              "Did you forget to include a set command for this " ++
              "sub item?"), false)
        else if ¬ (isWhitelisted whitelistName whitelist (some "set") ||
            (isWhitelisted whitelistName whitelist (some "remove") &&
              isWhitelisted whitelistName whitelist (some "add"))) then
          some (h, appendError errorDict fullAttrName
            ("Can not set this relation to a different object. " ++
              "The relationship is already set to another object and " ++
              "neither $set nor $remove and $add are whitelisted."), false)
        else
          some ((if validationMode then h
            else objSetField h p relationshipName (.ref (some relationObj))),
            errorDict, true)
      else
        if ¬ (setMarkerGiven updateStackItem ||
            addMarkerGiven updateStackItem) then
          some (h, appendError errorDict fullAttrName
            ("Referenced a sub item id that does not exist. " ++
              "Did you forget to include a set or add command " ++
              "for this sub item?"), false)
        else if ¬ (isWhitelisted whitelistName whitelist (some "add") ||
            isWhitelisted whitelistName whitelist (some "set")) then
          some (h, appendError errorDict fullAttrName
            ("Can not set this relation to a different object. " ++
              "Neither $set nor $add are whitelisted."), false)
        else
          some ((if validationMode then h
            else objSetField h p relationshipName (.ref (some relationObj))),
            errorDict, true)
    | none => none
  | _ => none

/-- `_filter_by_primary_key`: accumulate one equality filter per
primary-key field, converting the supplied string value to the
column's type.  Returns the updated error dict and `some filters`, or
the updated error dict and `none` when the source returns a `None`
query; the outer `none` models an uncaught `AttributeError` (a
primary-key name that is not a mapped column — impossible for real
mappers). -/
def filterByPrimaryKey (sch : Schema) (rcName : String)
    (pkNames : List String) (pkData : List (String × String))
    (fullAttrName : String) (errorDict : ErrorDict)
    (acc : List (String × PyVal)) :
    Option (ErrorDict × Option (List (String × PyVal))) :=
  match pkNames with
  | [] => some (errorDict, some acc)
  | pk :: rest =>
    match assocGet pkData pk with
    | some raw =>
      match schemaAttr sch rcName pk with
      | some (.column t) =>
        match convertToAlchemyType (.pystr raw) t with
        | .ok v =>
          filterByPrimaryKey sch rcName rest pkData fullAttrName errorDict
            (acc ++ [(pk, v)])
        | .error _ =>
          some (appendError errorDict fullAttrName
            "Invalid id primary key value.", none)
      | _ => none
    | none =>
      some (appendError errorDict fullAttrName
        "Invalid id primary key field.", none)

/-- Whether object `i` satisfies every accumulated equality filter
(SQL `=` on column values, modelled by Python equality). -/
def matchesFilters (sch : Schema) (h : Heap) (i : Nat)
    (filters : List (String × PyVal)) : Bool :=
  filters.all fun fv =>
    match objGetField sch h i fv.1 with
    | some (.scalar w) => pyEq w fv.2
    | _ => false

/-- The candidate objects of `query(RecordClass).with_parent(parent)`:
the objects currently related to `parent` through the relationship
being traversed.  `none` models `with_parent` raising on a parent
that is not a live object. -/
def withParentCandidates (sch : Schema) (h : Heap) (parentRef : StackRef)
    (relName : String) : Option (List Nat) :=
  match parentRef with
  | .obj p =>
    match objGetField sch h p relName with
    | some (.many l) => some l
    | some (.ref (some o)) => some [o]
    | some (.ref none) => some []
    | _ => none
  | _ => none

/-- `query(RecordClass).filter(...).first()` against the whole backing
store: the first object of the class satisfying the filters, in
storage order. -/
def heapQueryFirst (sch : Schema) (h : Heap) (rcName : String)
    (filters : List (String × PyVal)) : Option Nat :=
  (List.range h.length).find? fun i =>
    match h.get? i with
    | some o => o.typeName == rcName && matchesFilters sch h i filters
    | none => false


/-- A work-stack frame: the `"POP"` sentinel or a (sub)tree of the
update tree. -/
inductive Frame where
  | pop
  | tree (t : UTree)

/-- The immutable data of one `_set_record_attrs` run.  The embedding
fixes `convert_key_names` to its default `False`, so
`_convert_key_name` is the identity and `key_stack`/`c_key_stack`
carry the same names. -/
structure Config where
  schema : Schema
  rootTypeName : String
  root : Nat
  whitelist : Option (List String)
  stackSizeLimit : Option Nat
  addToSession : Bool
  validationMode : Bool

/-- The mutable state of the interpreter loop.  Every stack is stored
top-first (Python's `list.append`/`list.pop` work at the head here). -/
structure MState where
  heap : Heap
  updateStack : List Frame
  keyStack : List String
  cKeyStack : List String
  attrStack : List StackRef
  errorDict : ErrorDict
  session : List Nat

/-- Python `l[-(n+1)]`. -/
def nthLast {α : Type} (l : List α) (n : Nat) : Option α := l.reverse.get? n

def hasPropB : Option ClassAttr → Bool
  | some (.attrCol _) => true
  | some (.attrRel _ _) => true
  | _ => false

/-- Python `<=` on entry keys, as a relation for sorting. -/
def entryLe (a b : String × UTree) : Prop := strLeB a.1 b.1 = true

instance : DecidableRel entryLe := fun a b => by
  unfold entryLe
  infer_instance

/-- `sorted(item.keys())` lifted to the entry list (stable, over
unique keys). -/
def sortEntries (entries : List (String × UTree)) : List (String × UTree) :=
  List.insertionSort entryLe entries

/-- Replace the work stack (the frame just popped is consumed). -/
def withStack (s : MState) (us : List Frame) : MState :=
  { s with updateStack := us }

/-- Record an error and consume the popped frame. -/
def withErr (s : MState) (us : List Frame) (field msg : String) : MState :=
  { s with updateStack := us, errorDict := appendError s.errorDict field msg }

/-- The recurring push sequence of the source: push the key on both
key stacks, a resolved object on the attribute stack, then a `"POP"`
sentinel and the value subtree on the work stack. -/
def pushScope (s : MState) (rest : List Frame) (key : String)
    (ref : StackRef) (val : UTree) : MState :=
  { s with
    keyStack := key :: s.keyStack
    cKeyStack := key :: s.cKeyStack
    attrStack := ref :: s.attrStack
    updateStack := .tree val :: .pop :: rest }

/-- Lines 1107–1120 of the source: after an id token is resolved, a
raw (non-dict) subtree is an error; otherwise the resolved object (or
a fresh dummy instance of the target class when resolution or
attachment failed) is pushed together with the key and a `"POP"`
sentinel, and descent continues into the subtree. -/
def idFinish (s : MState) (rest : List Frame) (key fullName rcName : String)
    (val : UTree) (robj : Option Nat) (success : Bool) (errs : ErrorDict)
    (h : Heap) : Option MState :=
  match val with
  | .leaf _ =>
    some (withErr { s with heap := h, errorDict := errs } rest fullName
      "Attempted to set an object to a raw value.")
  | .node _ =>
    if success then
      match robj with
      | some o =>
        some (pushScope { s with heap := h, errorDict := errs } rest key
          (.obj o) val)
      | none => none
    else
      some (pushScope
        { s with heap := h ++ [⟨rcName, []⟩], errorDict := errs } rest key
        (.obj h.length) val)

/-- The body of the `len(item.keys()) == 1` case of the interpreter
loop: dispatch on the key's classification.  `none` models an
uncaught Python exception (each such spot is unreachable in real runs
and is noted individually). -/
def stepSingle (cfg : Config) (s : MState) (rest : List Frame)
    (key : String) (val : UTree) (parent : StackRef)
    (cattrs : List ClassAttr) (fullName : String) : Option MState :=
  if isAddKey key || isSetKey key then
    -- handled when the sibling id/new node was processed
    some (withStack s rest)
  else if isRemoveKey key then
    if coerceRemoveFlag val then
      let wn := getWhitelistName s.cKeyStack.reverse
      if ¬ isWhitelisted wn cfg.whitelist (some "remove") then
        some (withErr s rest fullName "Removing this relation is not allowed.")
      else if 3 ≤ cattrs.length then
        match nthLast cattrs 2 with
        | some (.attrRel _ false) =>
          if 4 ≤ cattrs.length then
            -- delete a single-entity relationship object
            match s.attrStack.get? 2, s.cKeyStack.get? 1 with
            | some grandparent, some relName =>
              if cfg.validationMode then
                some { s with
                  updateStack := rest
                  attrStack := .null :: s.attrStack.tail }
              else
                match grandparent with
                | .obj g =>
                  some { s with
                    updateStack := rest
                    heap := objSetField s.heap g relName (.ref none)
                    attrStack := .null :: s.attrStack.tail }
                | .relList _ _ =>
                  -- setattr on a collection wrapper: a junk attribute,
                  -- the object graph is unchanged
                  some { s with
                    updateStack := rest
                    attrStack := .null :: s.attrStack.tail }
                | .null => none   -- setattr(None, ...) raises
            | _, _ => none        -- IndexError
          else
            some (withErr s rest fullName
              "Removing this relation is not a valid action.")
        | some (.attrRel _ true) =>
          -- delete a relationship object from a list
          match s.attrStack.get? 1 with
          | some grandparent =>
            if cfg.validationMode then some (withStack s rest)
            else
              match grandparent, parent with
              | .relList o f, .obj pid =>
                match objGetField cfg.schema s.heap o f with
                | some (.many l) =>
                  if pid ∈ l then
                    some { s with
                      updateStack := rest
                      heap := objSetField s.heap o f (.many (l.erase pid)) }
                  else none   -- list.remove raises ValueError
                | _ => none
              | _, _ => none  -- .remove on a non-list raises
          | none => none      -- IndexError
        | some (.attrCol _) => none  -- .property.uselist on a column raises
        | _ =>
          some (withErr s rest fullName
            "Removing this relation is not a valid action.")
      else
        some (withErr s rest fullName
          "Removing this relation is not a valid action.")
    else
      some (withStack s rest)
  else if isNewKey key then
    let wn := getWhitelistName s.cKeyStack.reverse
    if ¬ isWhitelisted wn cfg.whitelist (some "create") then
      some (withErr s rest fullName
        "You may not create a new instance of this object.")
    else
      match val with
      | .leaf _ =>
        some (withErr s rest fullName
          "Attempted to set an object to a raw value.")
      | .node _ =>
        if 2 ≤ cattrs.length ∧ hasPropB (nthLast cattrs 1) then
          match nthLast cattrs 1 with
          | some (.attrRel target ul) =>
            let newId := s.heap.length
            let h1 := s.heap ++ [⟨target, []⟩]
            let result :=
              if ul then
                appendToListRelation cfg.schema h1 newId parent val
                  fullName wn cfg.whitelist s.errorDict cfg.validationMode
              else
                match s.attrStack.get? 1, s.cKeyStack.head? with
                | some gp, some relName =>
                  setNonListRelationshipObj cfg.schema h1 newId gp relName
                    val fullName wn cfg.whitelist s.errorDict
                    cfg.validationMode
                | _, _ => none   -- IndexError
            match result with
            | none => none
            | some (h2, errs2, success) =>
              some (pushScope
                { s with
                  heap := h2
                  errorDict := errs2
                  session :=
                    if cfg.addToSession && !cfg.validationMode && success
                    then s.session ++ [newId] else s.session }
                rest key (.obj newId) val)
          | _ => none   -- inspect(...).mapper on a column attribute raises
        else
          some (withErr s rest fullName
            "Invalid parent for this newly created object.")
  else if isIdKey key then
    if 2 ≤ cattrs.length ∧ 2 ≤ s.attrStack.length ∧
        hasPropB (nthLast cattrs 1) = true then
      match getPrimaryKeyDict key with
      | none => some (withErr s rest fullName "Invalid id reference.")
      | some pkData =>
        match nthLast cattrs 1 with
        | some (.attrRel target ul) =>
          let pkNames := getAlchemyPrimaryKeys cfg.schema target
          match s.attrStack.get? 1, s.cKeyStack.head? with
          | some parentObjRef, some relName =>
            match withParentCandidates cfg.schema s.heap parentObjRef relName
            with
            | none => none   -- with_parent on a non-instance raises
            | some cands =>
              match filterByPrimaryKey cfg.schema target pkNames pkData
                  fullName s.errorDict [] with
              | none => none
              | some (errs1, none) =>
                -- filter by primary key failed: query is None
                idFinish s rest key fullName target val none false errs1
                  s.heap
              | some (errs1, some filters) =>
                match cands.filter
                    (fun i => matchesFilters cfg.schema s.heap i filters) with
                | o :: _ =>
                  -- the object is already in the relationship
                  idFinish s rest key fullName target val (some o) true errs1
                    s.heap
                | [] =>
                  match filterByPrimaryKey cfg.schema target pkNames pkData
                      fullName errs1 [] with
                  | none => none
                  | some (errs2, none) =>
                    idFinish s rest key fullName target val none false errs2
                      s.heap
                  | some (errs2, some filters2) =>
                    match heapQueryFirst cfg.schema s.heap target filters2
                    with
                    | none =>
                      idFinish s rest key fullName target val none false
                        (appendError errs2 fullName
                          ("A database race condition caused an " ++
                            "unexpected error. Please try again."))
                        s.heap
                    | some o =>
                      let wn := getWhitelistName s.cKeyStack.reverse
                      let res :=
                        if ul then
                          appendToListRelation cfg.schema s.heap o parent
                            val fullName wn cfg.whitelist errs2
                            cfg.validationMode
                        else
                          setNonListRelationshipObj cfg.schema s.heap o
                            parentObjRef relName val fullName wn
                            cfg.whitelist errs2 cfg.validationMode
                      match res with
                      | none => none
                      | some (h3, errs3, success) =>
                        idFinish s rest key fullName target val (some o)
                          success errs3 h3
          | _, _ => none   -- IndexError
        | _ => none   -- inspect(...).mapper on a column attribute raises
    else
      some (withErr s rest fullName "Invalid id reference.")
  else
    match parent with
    | .null =>
      some (withErr s rest fullName
        "Attribute doesn't have a valid parent object.")
    | _ =>
      match nthLast cattrs 0 with
      | some (.attrCol t) =>
        let wn := getWhitelistName (key :: s.cKeyStack).reverse
        if isWhitelisted wn cfg.whitelist none then
          match val with
          | .node _ =>
            -- coercion of a dict raises a (caught) conversion error
            some (withErr s rest fullName
              "Unable to convert value to the proper type.")
          | .leaf v =>
            match convertToAlchemyType v t with
            | .error _ =>
              some (withErr s rest fullName
                "Unable to convert value to the proper type.")
            | .ok value =>
              if cfg.validationMode then some (withStack s rest)
              else
                match parent with
                | .obj p =>
                  some { s with
                    updateStack := rest
                    heap := objSetField s.heap p key (.scalar value) }
                | .relList _ _ =>
                  -- setattr on a collection wrapper: a junk attribute,
                  -- the object graph is unchanged
                  some (withStack s rest)
                | .null => none   -- unreachable, handled above
        else
          some (withErr s rest fullName
            "You do not have permission to modify this attribute.")
      | some (.attrRel _ ul) =>
        let attr : Option StackRef :=
          if ¬ ul then some .null
          else
            match parent with
            | .obj p => some (.relList p key)
            | _ => none   -- getattr on a collection wrapper raises
        match attr with
        | none => none
        | some attrRef =>
          match val with
          | .node _ => some (pushScope s rest key attrRef val)
          | .leaf _ =>
            some (withErr s rest fullName
              "Attempted to set an object to a raw value.")
      | _ => none   -- a plain key always resolves to a column or relationship

/-- One iteration of the interpreter loop of `_set_record_attrs`
(after the stack-size check): pop a frame and process it. -/
def step (cfg : Config) (s : MState) : Option MState :=
  match s.updateStack with
  | [] => some s
  | .pop :: rest =>
    match s.attrStack, s.keyStack, s.cKeyStack with
    | _ :: at2, _ :: kt2, _ :: ct2 =>
      some { s with
        updateStack := rest
        attrStack := at2
        keyStack := kt2
        cKeyStack := ct2 }
    | _, _, _ => none   -- pop from an empty list raises
  | .tree (.leaf _) :: _ => none   -- non-dict frame: `.keys()` raises
  | .tree (.node [(key, val)]) :: rest =>
    match s.attrStack.head? with
    | none => none   -- attr_stack[-1] raises IndexError
    | some parent =>
      let fullName := getFullAttrName s.keyStack.reverse key
      match getClassAttributes cfg.schema cfg.rootTypeName
          (String.intercalate "."
            (cfg.rootTypeName :: (s.cKeyStack.reverse ++ [key]))) with
      | none => some (withErr s rest fullName "Invalid attribute name.")
      | some cattrs => stepSingle cfg s rest key val parent cattrs fullName
  | .tree (.node entries) :: rest =>
    -- zero or several keys: re-push each pair in ascending sorted order
    some (withStack s
      ((sortEntries entries).foldl
        (fun acc kv => .tree (.node [kv]) :: acc) rest))

/-- The outcome of one interpreter run: fuel exhaustion (an artifact
of the embedding), an uncaught Python exception, the fatal
"update too complex" abort, the aggregated-error exception, or normal
return of the root instance. -/
inductive RunResult where
  | outOfFuel
  | crash
  | tooComplex
  | failed (errors : ErrorDict)
  | ok (root : Nat) (heap : Heap) (errors : ErrorDict) (session : List Nat)

/-- Python truthiness of the `stack_size_limit` argument (`None` and
`0` disable the check). -/
def limitTruthy : Option Nat → Bool
  | none => false
  | some n => n != 0

/-- The guard `stack_size_limit and len(update_stack) > stack_size_limit`. -/
def limitExceeded (lim : Option Nat) (len : Nat) : Bool :=
  limitTruthy lim && decide (lim.getD 0 < len)

/-- The interpreter loop of `_set_record_attrs`: while the work stack
is non-empty, enforce the stack-size limit then run one step; on
termination raise the aggregated errors if any, else return the root
instance. -/
def run (cfg : Config) : Nat → MState → RunResult
  | 0, _ => .outOfFuel
  | fuel + 1, s =>
    match s.updateStack with
    | [] =>
      if s.errorDict.isEmpty then .ok cfg.root s.heap s.errorDict s.session
      else .failed s.errorDict
    | _ :: _ =>
      if limitExceeded cfg.stackSizeLimit s.updateStack.length then .tooComplex
      else
        match step cfg s with
        | none => .crash
        | some s2 => run cfg fuel s2

/-- `_set_record_attrs`: build the update tree, seed the stacks (the
attribute stack starts holding the root instance) and run the loop. -/
def setRecordAttrs (sch : Schema) (h : Heap) (inst : Nat)
    (params : List (String × PyVal)) (whitelist : Option (List String))
    (addToSession : Bool) (stackSizeLimit : Option Nat)
    (validationMode : Bool) (fuel : Nat) : RunResult :=
  match h.get? inst with
  | none => .crash   -- a dangling instance reference cannot occur
  | some o =>
    match splitDictParams params with
    | none => .crash   -- `_split_dict_params` raised a TypeError
    | some tree =>
      run
        { schema := sch
          rootTypeName := o.typeName
          root := inst
          whitelist := whitelist
          stackSizeLimit := stackSizeLimit
          addToSession := addToSession
          validationMode := validationMode }
        fuel
        { heap := h
          updateStack := [.tree (.node tree)]
          keyStack := []
          cKeyStack := []
          attrStack := [.obj inst]
          errorDict := []
          session := [] }

/-- `_cleanse_update_params`: keep only the keys whose first dotted
segment is an attribute of the instance; every other key is silently
dropped. -/
def cleanseUpdateParams (sch : Schema) (h : Heap) (inst : Nat)
    (params : List (String × PyVal)) : List (String × PyVal) :=
  match h.get? inst with
  | none => []
  | some o =>
    params.filter fun kv =>
      match strSplitOn kv.1 "." with
      | [] => false
      | k0 :: _ => (schemaAttr sch o.typeName k0).isSome

/-- The outcome of an entry-point call: the propagated interpreter
outcomes, or a normal return carrying the Python return value plus
the final object graph, error map and session. -/
inductive CallResult (α : Type) where
  | outOfFuel
  | crash
  | tooComplex
  | failed (errors : ErrorDict)
  | ret (a : α) (heap : Heap) (errors : ErrorDict) (session : List Nat)

/-- `update_resource`: cleanse the params and apply
`_set_record_attrs` in place.  The function body has no `return`
statement, so a successful call returns Python `None` (modelled as
`Option.none`), not the mutated record. -/
def updateResource (sch : Schema) (h : Heap) (inst : Nat)
    (params : List (String × PyVal)) (whitelist : Option (List String))
    (addToSession : Bool) (stackSizeLimit : Option Nat)
    (validationMode : Bool) (fuel : Nat) : CallResult (Option Nat) :=
  match setRecordAttrs sch h inst (cleanseUpdateParams sch h inst params)
      whitelist addToSession stackSizeLimit validationMode fuel with
  | .outOfFuel => .outOfFuel
  | .crash => .crash
  | .tooComplex => .tooComplex
  | .failed e => .failed e
  | .ok _ h2 e2 sess => .ret none h2 e2 sess

/-- `create_resource`: instantiate a fresh record of the class, apply
`_set_record_attrs`, optionally add the new instance to the session,
and return the instance. -/
def createResource (sch : Schema) (h : Heap) (rcName : String)
    (params : List (String × PyVal)) (whitelist : Option (List String))
    (addToSession : Bool) (stackSizeLimit : Option Nat)
    (validationMode : Bool) (fuel : Nat) : CallResult Nat :=
  let inst := h.length
  let h1 := h ++ [⟨rcName, []⟩]
  match setRecordAttrs sch h1 inst (cleanseUpdateParams sch h1 inst params)
      whitelist addToSession stackSizeLimit validationMode fuel with
  | .outOfFuel => .outOfFuel
  | .crash => .crash
  | .tooComplex => .tooComplex
  | .failed e => .failed e
  | .ok _ h2 e2 sess =>
    .ret inst h2 e2 (if addToSession then sess ++ [inst] else sess)

theorem run_succ_eq (cfg : Config) (n : Nat) (s : MState) :
    run cfg (n + 1) s =
      match s.updateStack with
      | [] =>
        if s.errorDict.isEmpty then .ok cfg.root s.heap s.errorDict s.session
        else .failed s.errorDict
      | _ :: _ =>
        if limitExceeded cfg.stackSizeLimit s.updateStack.length then
          .tooComplex
        else
          match step cfg s with
          | none => .crash
          | some s2 => run cfg n s2 := rfl

/-- C5: whenever a truthy stack-size limit is set and the update
stack's length exceeds it at the top of the loop, the run aborts
immediately with the fatal "update too complex" exception, which is
never the aggregated-error exception (the error map plays no part). -/
theorem stack_limit_aborts_immediately (cfg : Config) (fuel : Nat)
    (s : MState) (hlim : limitTruthy cfg.stackSizeLimit = true)
    (hlen : cfg.stackSizeLimit.getD 0 < s.updateStack.length) :
    run cfg (fuel + 1) s = .tooComplex ∧
      ∀ e, run cfg (fuel + 1) s ≠ .failed e := by
  have hcond : limitExceeded cfg.stackSizeLimit s.updateStack.length = true := by
    unfold limitExceeded
    rw [hlim]
    simpa using hlen
  match hstk : s.updateStack with
  | [] =>
    rw [hstk] at hlen
    exact absurd hlen (by simp)
  | f :: r =>
    rw [hstk] at hcond
    have hrun : run cfg (fuel + 1) s = .tooComplex := by
      rw [run_succ_eq, hstk]
      simp only [hcond, if_true]
    exact ⟨hrun, fun e he => RunResult.noConfusion (hrun ▸ he)⟩

theorem stack_limit_aborts_immediately_witness :
    run
      { schema := []
        rootTypeName := "T"
        root := 0
        whitelist := none
        stackSizeLimit := some 1
        addToSession := true
        validationMode := false }
      1
      { heap := []
        updateStack := [.tree (.node []), .tree (.node [])]
        keyStack := []
        cKeyStack := []
        attrStack := [.obj 0]
        errorDict := []
        session := [] } = .tooComplex :=
  (stack_limit_aborts_immediately _ 0 _ (by decide) (by decide)).1

/-- C1: when the update stack empties, the run raises the single
structured exception carrying the full accumulated error map exactly
when that map is non-empty, and otherwise returns the root instance;
consequently a run never fails with an empty error map, and a normal
return always yields the root instance with an empty error map — both
for the loop and for `_set_record_attrs` itself. -/
theorem run_raises_iff_errors_nonempty :
    (∀ (cfg : Config) (fuel : Nat) (s : MState),
      (∀ e, run cfg fuel s = .failed e → e ≠ []) ∧
      (∀ r h e sess, run cfg fuel s = .ok r h e sess →
        r = cfg.root ∧ e = []) ∧
      (s.updateStack = [] → 0 < fuel →
        run cfg fuel s =
          if s.errorDict = [] then .ok cfg.root s.heap s.errorDict s.session
          else .failed s.errorDict)) ∧
    (∀ sch h inst params wl ats lim vm fuel,
      (∀ e, setRecordAttrs sch h inst params wl ats lim vm fuel = .failed e →
        e ≠ []) ∧
      (∀ r h2 e sess,
        setRecordAttrs sch h inst params wl ats lim vm fuel =
          .ok r h2 e sess → r = inst ∧ e = [])) := by
  have main : ∀ (fuel : Nat) (cfg : Config) (s : MState),
      (∀ e, run cfg fuel s = .failed e → e ≠ []) ∧
      (∀ r h e sess, run cfg fuel s = .ok r h e sess →
        r = cfg.root ∧ e = []) ∧
      (s.updateStack = [] → 0 < fuel →
        run cfg fuel s =
          if s.errorDict = [] then .ok cfg.root s.heap s.errorDict s.session
          else .failed s.errorDict) := by
    intro fuel
    induction fuel with
    | zero =>
      intro cfg s
      refine ⟨fun e he => ?_, fun r h e sess he => ?_, fun _ h0 => ?_⟩
      · exact RunResult.noConfusion
          (he : RunResult.outOfFuel = RunResult.failed e)
      · exact RunResult.noConfusion
          (he : RunResult.outOfFuel = RunResult.ok r h e sess)
      · exact absurd h0 (by simp)
    | succ n ih =>
      intro cfg s
      match hstk : s.updateStack with
      | [] =>
        have hrun : run cfg (n + 1) s =
            if s.errorDict.isEmpty then
              .ok cfg.root s.heap s.errorDict s.session
            else .failed s.errorDict := by
          rw [run_succ_eq, hstk]
        refine ⟨fun e he => ?_, fun r h e sess he => ?_, fun _ _ => ?_⟩
        · rw [hrun] at he
          by_cases hemp : s.errorDict.isEmpty
          · rw [if_pos hemp] at he
            exact RunResult.noConfusion he
          · rw [if_neg hemp] at he
            obtain rfl : s.errorDict = e := RunResult.failed.inj he
            intro h0
            rw [h0] at hemp
            exact hemp rfl
        · rw [hrun] at he
          by_cases hemp : s.errorDict.isEmpty
          · rw [if_pos hemp] at he
            obtain ⟨h1, _, h3, _⟩ := RunResult.ok.inj he
            exact ⟨h1.symm, h3 ▸ List.isEmpty_iff.1 hemp⟩
          · rw [if_neg hemp] at he
            exact RunResult.noConfusion he
        · rw [hrun]
          by_cases hemp : s.errorDict = []
          · rw [if_pos hemp, if_pos (by rw [hemp]; rfl)]
          · rw [if_neg hemp, if_neg (by simpa [List.isEmpty_iff] using hemp)]
      | f :: r =>
        have hrun : run cfg (n + 1) s =
            if limitExceeded cfg.stackSizeLimit (f :: r).length then
              .tooComplex
            else
              match step cfg s with
              | none => .crash
              | some s2 => run cfg n s2 := by
          rw [run_succ_eq, hstk]
        refine ⟨fun e he => ?_, fun r2 h e sess he => ?_,
          fun h0 _ => List.noConfusion h0⟩
        · rw [hrun] at he
          split at he
          · exact RunResult.noConfusion he
          · split at he
            · exact RunResult.noConfusion he
            · exact (ih cfg _).1 e he
        · rw [hrun] at he
          split at he
          · exact RunResult.noConfusion he
          · split at he
            · exact RunResult.noConfusion he
            · exact (ih cfg _).2.1 r2 h e sess he
  refine ⟨fun cfg fuel s => main fuel cfg s, ?_⟩
  intro sch h inst params wl ats lim vm fuel
  unfold setRecordAttrs
  match h.get? inst with
  | none =>
    exact ⟨fun e he => RunResult.noConfusion he,
      fun r h2 e sess he => RunResult.noConfusion he⟩
  | some o =>
    match splitDictParams params with
    | none =>
      exact ⟨fun e he => RunResult.noConfusion he,
        fun r h2 e sess he => RunResult.noConfusion he⟩
    | some tree =>
      exact ⟨fun e he => (main fuel _ _).1 e he,
        fun r h2 e sess he => (main fuel _ _).2.1 r h2 e sess he⟩

theorem run_raises_iff_errors_nonempty_witness :
    run
      { schema := []
        rootTypeName := "T"
        root := 7
        whitelist := none
        stackSizeLimit := none
        addToSession := true
        validationMode := false }
      1
      { heap := []
        updateStack := []
        keyStack := []
        cKeyStack := []
        attrStack := []
        errorDict := [("x", ["m"])]
        session := [] } = .failed [("x", ["m"])] := by
  have h :=
    (run_raises_iff_errors_nonempty.1
      { schema := []
        rootTypeName := "T"
        root := 7
        whitelist := none
        stackSizeLimit := none
        addToSession := true
        validationMode := false }
      1
      { heap := []
        updateStack := []
        keyStack := []
        cKeyStack := []
        attrStack := []
        errorDict := [("x", ["m"])]
        session := [] }).2.2 rfl (by decide)
  rw [h, if_neg (by decide)]

def isPopFrame : Frame → Bool
  | .pop => true
  | .tree _ => false

/-- The number of pending `"POP"` sentinels on the work stack: one per
scope entered and not yet left. -/
def countPop (l : List Frame) : Nat := (l.filter isPopFrame).length

theorem countPop_nil : countPop [] = 0 := rfl

theorem countPop_cons_tree (t : UTree) (l : List Frame) :
    countPop (.tree t :: l) = countPop l := by
  simp [countPop, List.filter, isPopFrame]

theorem countPop_cons_pop (l : List Frame) :
    countPop (.pop :: l) = countPop l + 1 := by
  simp [countPop, List.filter, isPopFrame]

theorem countPop_pushMulti (l : List (String × UTree)) (rest : List Frame) :
    countPop
      (l.foldl (fun acc kv => Frame.tree (.node [kv]) :: acc) rest) =
      countPop rest := by
  induction l generalizing rest with
  | nil => rfl
  | cons kv l2 ih =>
    rw [List.foldl_cons, ih, countPop_cons_tree]

/-- The stack-alignment invariant of the interpreter: the attribute
stack is one deeper than the key stacks (it always also holds the
root), the two key stacks move together, and each entry on them is
matched by exactly one pending `"POP"` sentinel. -/
def StackInv (s : MState) : Prop :=
  s.attrStack.length = s.keyStack.length + 1 ∧
  s.cKeyStack.length = s.keyStack.length ∧
  countPop s.updateStack = s.keyStack.length

set_option maxHeartbeats 3200000 in
theorem stepSingle_inv (cfg : Config) (s : MState) (rest : List Frame)
    (key : String) (val : UTree) (parent : StackRef)
    (cattrs : List ClassAttr) (fullName : String) (s' : MState)
    (hattr : s.attrStack.length = s.keyStack.length + 1)
    (hckey : s.cKeyStack.length = s.keyStack.length)
    (hpop : countPop rest = s.keyStack.length)
    (h : stepSingle cfg s rest key val parent cattrs fullName = some s') :
    s'.attrStack.length = s'.keyStack.length + 1 ∧
      s'.cKeyStack.length = s'.keyStack.length ∧
      countPop s'.updateStack = s'.keyStack.length := by
  unfold stepSingle idFinish at h
  dsimp only [] at h
  repeat' split at h
  all_goals
    first
      | exact Option.noConfusion h
      | (obtain rfl := Option.some.inj h
         refine ⟨?_, ?_, ?_⟩ <;>
           simp_all [withStack, withErr, pushScope, countPop_cons_tree,
             countPop_cons_pop, List.length_tail])

/-- C9 (amended): each scope push (id, new, or relationship descent)
pushes one name on each key stack, one reference on the attribute
stack and one `"POP"` sentinel, and the sentinel later pops all
three, so at every loop iteration the attribute stack is exactly one
deeper than the key stacks (it also holds the root instance): object
depth = key depth + 1 = path length + 1.  The invariant holds at the
start of the run and is preserved by every step. -/
theorem step_preserves_stack_inv :
    (∀ (cfg : Config) (s s' : MState),
      StackInv s → step cfg s = some s' → StackInv s') ∧
    (∀ (h : Heap) (tree : List (String × UTree)) (inst : Nat),
      StackInv
        { heap := h
          updateStack := [.tree (.node tree)]
          keyStack := []
          cKeyStack := []
          attrStack := [.obj inst]
          errorDict := []
          session := [] }) := by
  constructor
  · intro cfg s s' hinv hstep
    obtain ⟨hattr, hckey, hpop⟩ := hinv
    unfold step at hstep
    match hstk : s.updateStack with
    | [] =>
      rw [hstk] at hstep
      obtain rfl := Option.some.inj hstep
      exact ⟨hattr, hckey, hstk ▸ hpop⟩
    | .pop :: rest =>
      rw [hstk] at hstep hpop
      rw [countPop_cons_pop] at hpop
      obtain ⟨k, kt2, hk⟩ : ∃ k kt2, s.keyStack = k :: kt2 := by
        match hkk : s.keyStack with
        | [] => rw [hkk] at hpop; simp at hpop
        | k :: kt2 => exact ⟨k, kt2, rfl⟩
      obtain ⟨c, ct2, hc⟩ : ∃ c ct2, s.cKeyStack = c :: ct2 := by
        match hcc : s.cKeyStack with
        | [] => rw [hcc, hk] at hckey; simp at hckey
        | c :: ct2 => exact ⟨c, ct2, rfl⟩
      obtain ⟨a, at2, ha⟩ : ∃ a at2, s.attrStack = a :: at2 := by
        match haa : s.attrStack with
        | [] => rw [haa] at hattr; simp at hattr
        | a :: at2 => exact ⟨a, at2, rfl⟩
      rw [ha, hk, hc] at hstep
      obtain rfl := Option.some.inj hstep
      rw [ha, hk] at hattr
      rw [hc, hk] at hckey
      rw [hk] at hpop
      refine ⟨?_, ?_, ?_⟩ <;> simp_all
    | .tree (.leaf v) :: rest =>
      rw [hstk] at hstep
      exact Option.noConfusion hstep
    | .tree (.node [(key, val)]) :: rest =>
      rw [hstk] at hstep hpop
      rw [countPop_cons_tree] at hpop
      match hh : s.attrStack.head? with
      | none => rw [hh] at hstep; exact Option.noConfusion hstep
      | some parent =>
        rw [hh] at hstep
        dsimp only [] at hstep
        split at hstep
        · obtain rfl := Option.some.inj hstep
          exact ⟨hattr, hckey, by simpa [withErr] using hpop⟩
        · exact stepSingle_inv cfg s rest key val parent _ _ s'
            hattr hckey hpop hstep
    | .tree (.node entries) :: rest =>
      rw [hstk] at hstep hpop
      rw [countPop_cons_tree] at hpop
      match entries, hstep with
      | [], hstep =>
        obtain rfl := Option.some.inj hstep
        exact ⟨hattr, hckey, by simpa [withStack, countPop_pushMulti] using hpop⟩
      | (k1, v1) :: (k2, v2) :: es, hstep =>
        obtain rfl := Option.some.inj hstep
        exact ⟨hattr, hckey, by simpa [withStack, countPop_pushMulti] using hpop⟩
      | [(k1, v1)], hstep =>
        -- the compiled match sends a single-key node through the
        -- singleton arm; handle it exactly like that case
        match hh : s.attrStack.head? with
        | none => rw [hh] at hstep; exact Option.noConfusion hstep
        | some parent =>
          rw [hh] at hstep
          dsimp only [] at hstep
          split at hstep
          · obtain rfl := Option.some.inj hstep
            exact ⟨hattr, hckey, by simpa [withErr] using hpop⟩
          · exact stepSingle_inv cfg s rest k1 v1 parent _ _ s'
              hattr hckey hpop hstep
  · intro h tree inst
    exact ⟨rfl, rfl, rfl⟩

theorem step_preserves_stack_inv_witness :
    StackInv
      { heap := []
        updateStack := []
        keyStack := []
        cKeyStack := []
        attrStack := [.obj 1]
        errorDict := []
        session := [] } :=
  step_preserves_stack_inv.1
    { schema := []
      rootTypeName := "T"
      root := 0
      whitelist := none
      stackSizeLimit := none
      addToSession := true
      validationMode := false }
    { heap := []
      updateStack := [.pop]
      keyStack := ["k"]
      cKeyStack := ["k"]
      attrStack := [.obj 0, .obj 1]
      errorDict := []
      session := [] }
    _ ⟨rfl, rfl, rfl⟩ rfl

/-- C9 counterexample: at the very first loop iteration of any run
(the state `_set_record_attrs` seeds), the object-reference stack
already holds the root instance while the key-name stack is empty, so
the object stack's depth is the key stack's depth plus one — the two
depths are never equal, contradicting the claimed equality. -/
theorem stack_depths_unequal_counterexample :
    (MState.attrStack
      { heap := [⟨"Album", []⟩]
        updateStack := [.tree (.node [("title", .leaf (.pystr "x"))])]
        keyStack := []
        cKeyStack := []
        attrStack := [.obj 0]
        errorDict := []
        session := [] }).length = 1 ∧
    (MState.keyStack
      { heap := [⟨"Album", []⟩]
        updateStack := [.tree (.node [("title", .leaf (.pystr "x"))])]
        keyStack := []
        cKeyStack := []
        attrStack := [.obj 0]
        errorDict := []
        session := [] }).length = 0 ∧
    (1 : Nat) ≠ 0 :=
  ⟨rfl, rfl, by decide⟩

theorem charsLt_trans :
    ∀ (as bs cs : List Char), charsLt as bs = true → charsLt bs cs = true →
      charsLt as cs = true
  | _, [], [] => by
    intro _ h2
    exact absurd h2 (by cases ‹List Char› <;> simp [charsLt])
  | as, b :: bs, [] => by
    intro _ h2
    exact absurd h2 (by simp [charsLt])
  | [], [], c :: cs => by
    intro h1 _
    exact absurd h1 (by simp [charsLt])
  | a :: as, [], c :: cs => by
    intro h1 _
    exact absurd h1 (by simp [charsLt])
  | [], b :: bs, c :: cs => by
    intro _ _
    simp [charsLt]
  | a :: as, b :: bs, c :: cs => by
    intro h1 h2
    simp only [charsLt] at h1 h2 ⊢
    by_cases hab : a < b
    · rw [if_pos hab] at h1
      by_cases hbc : b < c
      · rw [if_pos (lt_trans hab hbc)]
      · rw [if_neg hbc] at h2
        by_cases hcb : c < b
        · rw [if_pos hcb] at h2
          exact absurd h2 (by simp)
        · have heq : b = c := le_antisymm (not_lt.1 hcb) (not_lt.1 hbc)
          rw [← heq, if_pos hab]
    · rw [if_neg hab] at h1
      by_cases hba : b < a
      · rw [if_pos hba] at h1
        exact absurd h1 (by simp)
      · rw [if_neg hba] at h1
        have heq : a = b := le_antisymm (not_lt.1 hba) (not_lt.1 hab)
        subst heq
        by_cases hbc : a < c
        · rw [if_pos hbc]
        · rw [if_neg hbc] at h2 ⊢
          by_cases hcb : c < a
          · rw [if_pos hcb] at h2
            exact absurd h2 (by simp)
          · rw [if_neg hcb] at h2 ⊢
            exact charsLt_trans as bs cs h1 h2

theorem charsLt_total :
    ∀ (as bs : List Char), charsLt as bs = true ∨ as = bs ∨ charsLt bs as = true
  | [], [] => Or.inr (Or.inl rfl)
  | [], b :: bs => Or.inl (by simp [charsLt])
  | a :: as, [] => Or.inr (Or.inr (by simp [charsLt]))
  | a :: as, b :: bs => by
    rcases lt_trichotomy a b with hab | rfl | hba
    · exact Or.inl (by simp [charsLt, hab])
    · rcases charsLt_total as bs with h | h | h
      · exact Or.inl (by simp [charsLt, h])
      · exact Or.inr (Or.inl (by rw [h]))
      · exact Or.inr (Or.inr (by simp [charsLt, h]))
    · exact Or.inr (Or.inr (by simp [charsLt, hba, asymm hba]))

instance : IsTotal (String × UTree) entryLe :=
  ⟨fun a b => by
    unfold entryLe strLeB strLtB
    rcases charsLt_total a.1.data b.1.data with h | h | h
    · exact Or.inl (by rw [h]; rfl)
    · exact Or.inl (by rw [String.ext h]; simp)
    · exact Or.inr (by rw [h]; rfl)⟩

instance : IsTrans (String × UTree) entryLe :=
  ⟨fun a b c hab hbc => by
    unfold entryLe strLeB strLtB at hab hbc ⊢
    rw [Bool.or_eq_true] at hab hbc ⊢
    rcases hab with hab | hab
    · rcases hbc with hbc | hbc
      · exact Or.inl (charsLt_trans _ _ _ hab hbc)
      · rw [← show b.1 = c.1 from beq_iff_eq.1 hbc]
        exact Or.inl hab
    · rw [show a.1 = b.1 from beq_iff_eq.1 hab]
      exact hbc⟩

theorem foldl_push_eq (f : (String × UTree) → Frame) :
    ∀ (l : List (String × UTree)) (acc : List Frame),
      l.foldl (fun a kv => f kv :: a) acc = (l.reverse.map f) ++ acc
  | [], acc => rfl
  | x :: l, acc => by
    rw [List.foldl_cons, foldl_push_eq f l (f x :: acc)]
    simp

/-- A plain attribute name for the ordering comparison: it starts with
an ASCII letter (every verb token starts with `$`, which precedes all
letters). -/
def startsWithAsciiLetter (p : String) : Bool :=
  match p.data with
  | [] => false
  | c :: _ => ('A' ≤ c && c ≤ 'Z') || ('a' ≤ c && c ≤ 'z')

/-- C2 (amended): a multi-key node is re-pushed as single-key nodes in
ascending sorted key order; since the work stack is popped from the
top, the keys are then processed in descending order, and because the
verb tokens `$add`/`$remove`/`$set` sort strictly before every plain
attribute name, the verb tokens at a level are processed after the
plain attribute assignments at that level, not before. -/
theorem multiKey_push_ascending_processed_descending :
    (∀ (cfg : Config) (s : MState) (entries : List (String × UTree))
        (rest : List Frame),
      s.updateStack = .tree (.node entries) :: rest →
      entries.length ≠ 1 →
      step cfg s = some (withStack s
        (((sortEntries entries).reverse.map
            fun kv => Frame.tree (.node [kv])) ++ rest))) ∧
    (∀ entries, List.Sorted entryLe (sortEntries entries)) ∧
    (∀ v p, v ∈ ["$add", "$remove", "$set"] →
      startsWithAsciiLetter p = true → strLtB v p = true) := by
  refine ⟨?_, ?_, ?_⟩
  · intro cfg s entries rest hstk hlen
    unfold step
    rw [hstk]
    match entries, hlen with
    | [], _ =>
      rw [← foldl_push_eq]
    | [(k1, v1)], hlen => exact absurd rfl hlen
    | (k1, v1) :: (k2, v2) :: es, _ =>
      rw [← foldl_push_eq]
  · intro entries
    exact List.sorted_insertionSort entryLe entries
  · intro v p hv hp
    unfold startsWithAsciiLetter at hp
    match hpd : p.data, hp with
    | [], hp => exact Bool.noConfusion hp
    | c :: cs, hp =>
      have hp2 : (decide ('A' ≤ c) && decide (c ≤ 'Z') ||
          decide ('a' ≤ c) && decide (c ≤ 'z')) = true := hp
      have hc : 'A' ≤ c ∨ 'a' ≤ c := by
        rw [Bool.or_eq_true, Bool.and_eq_true, Bool.and_eq_true] at hp2
        rcases hp2 with ⟨h, _⟩ | ⟨h, _⟩
        · exact Or.inl (by exact_mod_cast of_decide_eq_true h)
        · exact Or.inr (by exact_mod_cast of_decide_eq_true h)
      have hac : ('$' : Char) < c := by
        rcases hc with h | h
        · exact lt_of_lt_of_le (by decide) h
        · exact lt_of_lt_of_le (by decide) h
      have hlt : ∀ vs, strLtB ⟨'$' :: vs⟩ p = true := by
        intro vs
        unfold strLtB
        rw [hpd]
        simp [charsLt, hac]
      simp only [List.mem_cons, List.mem_singleton, List.not_mem_nil,
        or_false] at hv
      rcases hv with rfl | rfl | rfl
      · exact hlt ['a', 'd', 'd']
      · exact hlt ['r', 'e', 'm', 'o', 'v', 'e']
      · exact hlt ['s', 'e', 't']

theorem multiKey_push_ascending_processed_descending_witness :
    step
      { schema := []
        rootTypeName := "T"
        root := 0
        whitelist := none
        stackSizeLimit := none
        addToSession := true
        validationMode := false }
      { heap := []
        updateStack :=
          [.tree (.node [("$add", .leaf (.pybool true)),
            ("title", .leaf (.pystr "x"))])]
        keyStack := []
        cKeyStack := []
        attrStack := [.obj 0]
        errorDict := []
        session := [] } =
    some (withStack
      { heap := []
        updateStack :=
          [.tree (.node [("$add", .leaf (.pybool true)),
            ("title", .leaf (.pystr "x"))])]
        keyStack := []
        cKeyStack := []
        attrStack := [.obj 0]
        errorDict := []
        session := [] }
      (((sortEntries [("$add", .leaf (.pybool true)),
          ("title", .leaf (.pystr "x"))]).reverse.map
        fun kv => Frame.tree (.node [kv])) ++ [])) :=
  multiKey_push_ascending_processed_descending.1 _ _
    [("$add", .leaf (.pybool true)), ("title", .leaf (.pystr "x"))] []
    rfl (by decide)

/-- The key of a single-key tree frame (a projection used to observe
processing order). -/
def frameKey : Frame → Option String
  | .tree (.node [(k, _)]) => some k
  | _ => none

/-- C2 counterexample: with siblings `$add` and `title`, the sorted
ascending re-push leaves the plain attribute name `title` on top of
the work stack, so it is processed first and the verb token `$add`
last — the claimed verbs-before-plain-names processing order is
reversed. -/
theorem multiKey_verb_processed_last_counterexample :
    (step
      { schema := []
        rootTypeName := "T"
        root := 0
        whitelist := none
        stackSizeLimit := none
        addToSession := true
        validationMode := false }
      { heap := []
        updateStack :=
          [.tree (.node [("$add", .leaf (.pybool true)),
            ("title", .leaf (.pystr "x"))])]
        keyStack := []
        cKeyStack := []
        attrStack := [.obj 0]
        errorDict := []
        session := [] }).map (fun s2 => s2.updateStack.map frameKey) =
      some [some "title", some "$add"] ∧
    isAddKey "$add" = true ∧
    isAddKey "title" = false ∧ isRemoveKey "title" = false ∧
    isSetKey "title" = false ∧ startsWithAsciiLetter "title" = true :=
  ⟨rfl, rfl, rfl, rfl, rfl, rfl⟩

/-- Mapping metadata mirroring the test database: albums with a
scalar title, a single-valued artist relation and a list-valued
tracks relation. -/
def chinookSchema : Schema :=
  [ ("Album",
      { attrs :=
          [("album_id", .column .ctInt), ("title", .column .ctString),
            ("artist", .relation "Artist" false),
            ("tracks", .relation "Track" true)]
        primaryKeys := ["album_id"] }),
    ("Artist",
      { attrs := [("artist_id", .column .ctInt), ("name", .column .ctString)]
        primaryKeys := ["artist_id"] }),
    ("Track",
      { attrs := [("track_id", .column .ctInt), ("name", .column .ctString)]
        primaryKeys := ["track_id"] }) ]

/-- A small object graph over `chinookSchema`: one album (instance 0)
with artist 1 and one attached track (instance 2); instance 3 is a
second track not attached to the album. -/
def chinookHeap : Heap :=
  [ { typeName := "Album"
      fields :=
        [("album_id", .scalar (.pyint 1)), ("title", .scalar (.pystr "Old")),
          ("artist", .ref (some 1)), ("tracks", .many [2])] },
    { typeName := "Artist"
      fields :=
        [("artist_id", .scalar (.pyint 5)),
          ("name", .scalar (.pystr "X"))] },
    { typeName := "Track"
      fields :=
        [("track_id", .scalar (.pyint 1)),
          ("name", .scalar (.pystr "T1"))] },
    { typeName := "Track"
      fields :=
        [("track_id", .scalar (.pyint 2)),
          ("name", .scalar (.pystr "T2"))] } ]

/-- C3 (amended): on a run with no aggregated errors, `create_resource`
returns the newly instantiated record, but `update_resource` has no
`return` statement: it mutates the record in place and returns Python
`None` (the mutated record is reachable only through the caller's own
reference). -/
theorem create_returns_new_instance_update_returns_none :
    (∀ sch h rc params wl ats lim vm fuel a h2 e sess,
      createResource sch h rc params wl ats lim vm fuel = .ret a h2 e sess →
      a = h.length) ∧
    (∀ sch h inst params wl ats lim vm fuel a h2 e sess,
      updateResource sch h inst params wl ats lim vm fuel = .ret a h2 e sess →
      a = none) := by
  constructor
  · intro sch h rc params wl ats lim vm fuel a h2 e sess hc
    unfold createResource at hc
    dsimp only [] at hc
    split at hc <;>
      first
        | exact CallResult.noConfusion hc
        | exact (CallResult.ret.inj hc).1.symm
  · intro sch h inst params wl ats lim vm fuel a h2 e sess hc
    unfold updateResource at hc
    split at hc <;>
      first
        | exact CallResult.noConfusion hc
        | exact (CallResult.ret.inj hc).1.symm

theorem create_returns_new_instance_update_returns_none_witness :
    createResource chinookSchema chinookHeap "Album" [] none true none false 5
      = .ret 4 (chinookHeap ++ [({ typeName := "Album", fields := [] } : Obj)])
        [] [4] ∧
    (4 : Nat) = chinookHeap.length :=
  ⟨rfl,
    create_returns_new_instance_update_returns_none.1 chinookSchema
      chinookHeap "Album" [] none true none false 5 4
      (chinookHeap ++ [({ typeName := "Album", fields := [] } : Obj)]) [] [4]
      rfl⟩

/-- C3 counterexample: a successful `update_resource` run (the simple
scalar update of the album's title) returns Python `None` — not the
mutated record, which is visible only through the heap. -/
theorem update_resource_returns_none_counterexample :
    updateResource chinookSchema chinookHeap 0 [("title", .pystr "TEST")]
      none true none false 20 =
      .ret none (objSetField chinookHeap 0 "title" (.scalar (.pystr "TEST")))
        [] [] := rfl

/-- C4 (amended): inside the walk, every update key whose path
contains a segment (beyond the first) that cannot be resolved records
an "Invalid attribute name." error for that path and skips the
subtree; but a key whose FIRST (top-level) segment does not resolve as
an attribute of the root instance is silently dropped by
`_cleanse_update_params` before the interpreter runs, and no error is
ever recorded for it. -/
theorem unresolvable_segment_errors_and_top_level_cleansing :
    (∀ (cfg : Config) (s : MState) (rest : List Frame) (key : String)
        (val : UTree) (parent : StackRef),
      s.updateStack = .tree (.node [(key, val)]) :: rest →
      s.attrStack.head? = some parent →
      getClassAttributes cfg.schema cfg.rootTypeName
        (String.intercalate "."
          (cfg.rootTypeName :: (s.cKeyStack.reverse ++ [key]))) = none →
      step cfg s = some
        (withErr s rest (getFullAttrName s.keyStack.reverse key)
          "Invalid attribute name.")) ∧
    (∀ (sch : Schema) (h : Heap) (inst : Nat)
        (params : List (String × PyVal)) (o : Obj) (kv : String × PyVal),
      h.get? inst = some o →
      (∀ k0 ks, strSplitOn kv.1 "." = k0 :: ks →
        schemaAttr sch o.typeName k0 = none) →
      kv ∉ cleanseUpdateParams sch h inst params) := by
  constructor
  · intro cfg s rest key val parent hstk hhead hgca
    unfold step
    rw [hstk, hhead]
    dsimp only []
    rw [hgca]
  · intro sch h inst params o kv hget hbad hmem
    unfold cleanseUpdateParams at hmem
    rw [hget] at hmem
    have hpred := (List.mem_filter.1 hmem).2
    match hsplit : strSplitOn kv.1 "." with
    | [] => rw [hsplit] at hpred; exact Bool.noConfusion hpred
    | k0 :: ks =>
      rw [hsplit] at hpred
      have hpred2 : (schemaAttr sch o.typeName k0).isSome = true := hpred
      rw [hbad k0 ks hsplit] at hpred2
      exact Bool.noConfusion hpred2

theorem unresolvable_segment_errors_and_top_level_cleansing_witness :
    step
      { schema := chinookSchema
        rootTypeName := "Album"
        root := 0
        whitelist := none
        stackSizeLimit := none
        addToSession := true
        validationMode := false }
      { heap := chinookHeap
        updateStack := [.tree (.node [("bogus", .leaf (.pystr "1"))])]
        keyStack := []
        cKeyStack := []
        attrStack := [.obj 0]
        errorDict := []
        session := [] } =
      some (withErr
        { heap := chinookHeap
          updateStack := [.tree (.node [("bogus", .leaf (.pystr "1"))])]
          keyStack := []
          cKeyStack := []
          attrStack := [.obj 0]
          errorDict := []
          session := [] }
        [] (getFullAttrName [] "bogus") "Invalid attribute name.") ∧
    ("bogus", PyVal.pystr "1") ∉
      cleanseUpdateParams chinookSchema chinookHeap 0
        [("bogus", .pystr "1")] := by
  constructor
  · exact unresolvable_segment_errors_and_top_level_cleansing.1 _ _ []
      "bogus" (.leaf (.pystr "1")) (.obj 0) rfl rfl rfl
  · refine unresolvable_segment_errors_and_top_level_cleansing.2
      chinookSchema chinookHeap 0 [("bogus", .pystr "1")]
      { typeName := "Album"
        fields :=
          [("album_id", .scalar (.pyint 1)),
            ("title", .scalar (.pystr "Old")), ("artist", .ref (some 1)),
            ("tracks", .many [2])] }
      ("bogus", .pystr "1") rfl ?_
    intro k0 ks hsplit
    have : k0 = "bogus" ∧ ks = [] := by
      rw [show strSplitOn "bogus" "." = ["bogus"] from rfl] at hsplit
      exact ⟨(List.cons.inj hsplit).1.symm, (List.cons.inj hsplit).2.symm⟩
    rw [this.1]
    rfl

/-- C4 counterexample: the update key `"bogus"` does not resolve as an
attribute of `Album`, yet the full `update_resource` run succeeds with
an empty error map and an unchanged object graph: the key is silently
dropped by parameter cleansing, no error is recorded for it. -/
theorem top_level_unresolvable_no_error_counterexample :
    updateResource chinookSchema chinookHeap 0 [("bogus", .pystr "1")]
      none true none false 20 = .ret none chinookHeap [] [] ∧
    schemaAttr chinookSchema "Album" "bogus" = none :=
  ⟨rfl, rfl⟩

/-- C10 (amended): the sibling `$add`/`_add_` (and `$set`/`_set_`)
marker is asserted exactly when its value compares equal under
Python `==` to one of `True`, `"True"`, `"true"`, `1`, `"1"` — the
membership test is tuple membership via `==`, so every numeric value
equal to 1 (for example the float `1.0`, since `1.0 == 1` and
`1.0 == True` in Python) is asserted, while `"TRUE"` and `"yes"` are
not; when no marker is asserted the attach path records the
"forgot to include" error instead of appending. -/
theorem marker_asserted_via_python_eq :
    (∀ (sch : Schema) (h : Heap) (o : Nat) (parent : StackRef)
        (item : UTree) (fn wn : String) (wl : Option (List String))
        (errs : ErrorDict) (vm : Bool),
      addMarkerGiven item = false →
      appendToListRelation sch h o parent item fn wn wl errs vm =
        some (h, appendError errs fn
          ("This sub-item is not currently included in this " ++
            "relationship. Were you attempting to add a new item and " ++
            "forgot to include an $add field?"), false)) ∧
    (∀ (v : PyVal) (k : String) (entries : List (String × UTree)),
      assocGet entries k = some (.leaf v) →
      (markerTrue (.node entries) k = true ↔
        (pyEq v (.pybool true) || pyEq v (.pystr "True") ||
          pyEq v (.pystr "true") || pyEq v (.pyint 1) ||
          pyEq v (.pystr "1")) = true)) ∧
    (∀ q : ℚ, pyEq (.pyfloat q) (.pyint 1) = true ↔ q = 1) ∧
    markerTrue (.node [("$add", .leaf (.pyfloat 1))]) "$add" = true ∧
    markerTrue (.node [("$add", .leaf (.pystr "TRUE"))]) "$add" = false ∧
    markerTrue (.node [("$add", .leaf (.pystr "yes"))]) "$add" = false := by
  refine ⟨?_, ?_, ?_, rfl, rfl, rfl⟩
  · intro sch h o parent item fn wn wl errs vm hmark
    unfold appendToListRelation
    rw [hmark]
    rfl
  · intro v k entries hget
    simp only [markerTrue]
    rw [hget]
    unfold pyIn
    simp only [List.any_cons, List.any_nil, Bool.or_false, Bool.or_assoc]
  · intro q
    show ((q : ℚ) == ((1 : Int) : ℚ)) = true ↔ q = 1
    rw [beq_iff_eq]
    norm_num

theorem marker_asserted_via_python_eq_witness :
    appendToListRelation chinookSchema chinookHeap 3 (.relList 0 "tracks")
      (.node [("$add", .leaf (.pystr "TRUE"))]) "tracks.$id:track_id=2"
      "tracks.$id" none [] false =
      some (chinookHeap,
        appendError [] "tracks.$id:track_id=2"
          ("This sub-item is not currently included in this " ++
            "relationship. Were you attempting to add a new item and " ++
            "forgot to include an $add field?"), false) ∧
    pyEq (.pyfloat 1) (.pyint 1) = true :=
  ⟨marker_asserted_via_python_eq.1 chinookSchema chinookHeap 3
      (.relList 0 "tracks") (.node [("$add", .leaf (.pystr "TRUE"))])
      "tracks.$id:track_id=2" "tracks.$id" none [] false rfl,
    (marker_asserted_via_python_eq.2.2.1 1).2 rfl⟩

/-- C10 counterexample: a sibling `$add` marker whose value is the
float `1.0` is treated as asserted (Python `1.0 == 1`), so the attach
is performed with no error — the claim that `1.0` behaves like an
absent marker and produces the "forgot to include" error is false. -/
theorem marker_float_one_attaches_counterexample :
    appendToListRelation chinookSchema chinookHeap 3 (.relList 0 "tracks")
      (.node [("$add", .leaf (.pyfloat 1))]) "tracks.$id:track_id=2"
      "tracks.$id" none [] false =
      some (objSetField chinookHeap 0 "tracks" (.many [2, 3]), [], true) ∧
    addMarkerGiven (.node [("$add", .leaf (.pyfloat 1))]) = true ∧
    updateResource chinookSchema chinookHeap 0
      [("tracks.$id:track_id=2.$add", .pyfloat 1)] none true none false 20 =
      .ret none (objSetField chinookHeap 0 "tracks" (.many [2, 3])) [] [] :=
  ⟨rfl, rfl, rfl⟩
